import Mathlib

/-!
Verification development for the Alpenglow vote-and-certificate pool
(`src/consensus/pool.rs` and `src/consensus.rs`).

The pool orchestration code (`Pool::add_vote`, `Pool::add_cert`,
`Pool::add_valid_cert`, `Pool::add_block`, `Pool::prune`,
`Pool::recover_from_standstill`, the status queries, and the durable-store
key layout) is translated directly from `pool.rs`.

The submodules `slot_state.rs` and `parent_ready_tracker.rs` are not part of
the available sources; the definitions that correspond to them are modelled
from the specification (stake thresholds of §4.2, duplicate policy and
slashable-offence list of §4.1, parent-ready semantics of §4.4) and are
marked `Modelled from the spec` in their doc comments.  The in-repo tests of
`pool.rs` are used to pin down the modelled behaviour (e.g. 7-of-11 equal
stake crosses the 60% thresholds, 9-of-11 crosses the 80% threshold, and a
`Final` certificate needs only `Final` votes).

Machine integers: slots, hashes, validator ids and stakes are modelled as
`Nat`; the only place where the 64-bit width matters is the durable-store
encoding, where theorems carry explicit `< 2^64` bounds.
Cryptographic signature checks are opaque verifiers per §1 of the spec and
are modelled as a boolean validity flag carried by votes and certificates.
-/

namespace Alpenglow

/-- Number of slots in each leader window (`consensus.rs`, `SLOTS_PER_WINDOW`). -/
def SLOTS_PER_WINDOW : Nat := 2

/-- Number of slots in each epoch (`consensus.rs`, `SLOTS_PER_EPOCH`). -/
def SLOTS_PER_EPOCH : Nat := 4500

/-- Association-list lookup, mirroring `BTreeMap::get`. -/
def lookupKV {κ α : Type} [DecidableEq κ] : List (κ × α) → κ → Option α
  | [], _ => none
  | e :: r, k => if e.1 = k then some e.2 else lookupKV r k

/-- Association-list insert, mirroring `BTreeMap::insert` / `Entry::or_insert`:
replaces the first entry with the given key, otherwise appends. -/
def insertKV {κ α : Type} [DecidableEq κ] : List (κ × α) → κ → α → List (κ × α)
  | [], k, a => [(k, a)]
  | e :: r, k, a => if e.1 = k then (k, a) :: r else e :: insertKV r k a

/-- Association-list removal, mirroring `BTreeMap::remove`. -/
def eraseKV {κ α : Type} [DecidableEq κ] : List (κ × α) → κ → List (κ × α)
  | [], _ => []
  | e :: r, k => if e.1 = k then r else e :: eraseKV r k

/-- Vote kinds (`vote.rs` variants, as listed in §3 of the spec); the
hash-bearing kinds carry their block hash. -/
inductive VoteKind where
  | notar (hash : Nat)
  | notarFallback (hash : Nat)
  | skip
  | skipFallback
  | final
deriving DecidableEq, Repr

/-- A vote: slot, signer, kind, and the signature modelled as a validity
flag (`Vote::check_sig` is an opaque verifier per §1 of the spec). -/
structure Vote where
  slot : Nat
  signer : Nat
  kind : VoteKind
  sig_ok : Bool
deriving DecidableEq, Repr

/-- Block hash carried by a vote, mirroring `Vote::block_hash`. -/
def Vote.block_hash (v : Vote) : Option Nat :=
  match v.kind with
  | VoteKind.notar h => some h
  | VoteKind.notarFallback h => some h
  | _ => none

/-- Certificate kinds (`cert.rs` variants, §3 of the spec). -/
inductive CertKind where
  | notar (hash : Nat)
  | notarFallback (hash : Nat)
  | skip
  | fastFinal (hash : Nat)
  | final
deriving DecidableEq, Repr

/-- A certificate: slot, kind, and the aggregate signature modelled as a
validity flag (`Cert::check_sig` is an opaque verifier per §1 of the spec). -/
structure Cert where
  slot : Nat
  kind : CertKind
  sig_ok : Bool
deriving DecidableEq, Repr

/-- Block hash carried by a certificate, mirroring `Cert::block_hash`. -/
def Cert.block_hash (c : Cert) : Option Nat :=
  match c.kind with
  | CertKind.notar h => some h
  | CertKind.notarFallback h => some h
  | CertKind.fastFinal h => some h
  | _ => none

/-- Slashable offences detectable by the pool (`pool.rs`, `SlashableOffence`). -/
inductive SlashableOffence where
  | notarDifferentHash (validator slot : Nat)
  | skipAndNotarize (validator slot : Nat)
  | skipAndFinalize (validator slot : Nat)
  | notarFallbackAndFinalize (validator slot : Nat)
deriving DecidableEq, Repr

/-- Errors the pool may return when adding a vote or certificate
(`pool.rs`, `PoolError`). -/
inductive PoolError where
  | slotOutOfBounds
  | invalidSignature
  | duplicate
  | slashable (o : SlashableOffence)
deriving DecidableEq, Repr

/-- Events sent to Votor (`votor.rs`, `VotorEvent`; §4.3 of the spec). -/
inductive VotorEvent where
  | blockNotarized (slot hash : Nat)
  | parentReady (slot parent_slot parent_hash : Nat)
  | safeToNotar (slot hash : Nat)
  | safeToSkip (slot : Nat)
  | certCreated (c : Cert)
  | timeout (slot : Nat)
  | standstill (slot : Nat) (certs : List Cert) (votes : List Vote)
deriving DecidableEq, Repr

/-- Epoch information: per-validator stakes (indexed by validator id) and
this node's own validator id (`epoch_info.rs`). -/
structure EpochInfo where
  stakes : List Nat
  own_id : Nat
deriving DecidableEq, Repr

/-- Stake of one validator. -/
def EpochInfo.stake (e : EpochInfo) (i : Nat) : Nat := e.stakes.getD i 0

/-- Total epoch stake: the sum across all validators (§3 of the spec). -/
def EpochInfo.total_stake (e : EpochInfo) : Nat := e.stakes.sum

/-- Block information handed to `Pool::add_block` by the blockstore
(`blockstore.rs`, `BlockInfo`). -/
structure BlockInfo where
  hash : Nat
  parent_slot : Nat
  parent_hash : Nat
deriving DecidableEq, Repr

/-- Modelled from the spec (`slot_state.rs` is not in the sources): the
per-kind, per-validator vote record of a slot state (§3 "votes"). -/
structure VoteRecord where
  notar : List Vote
  notar_fallback : List Vote
  skip : List Vote
  skip_fallback : List Vote
  finalize : List Vote
deriving DecidableEq, Repr

/-- Certificates held by one slot state (`pool.rs` accesses these fields of
`SlotCertificates`: `notar`, `notar_fallback` (a vector), `skip`,
`fast_finalize`, `finalize`). -/
structure SlotCertificates where
  notar : Option Cert
  notar_fallback : List Cert
  skip : Option Cert
  fast_finalize : Option Cert
  finalize : Option Cert
deriving DecidableEq, Repr

/-- Modelled from the spec (`slot_state.rs` is not in the sources): the
state of one slot.  `s2n_ready` models the hidden condition of
`notify_parent_certified`: the §4.3 `SafeToNotar` vote-upgrade trigger is
"encoded in the slot state", so we model it as the set of block hashes for
which notification yields an event. -/
structure SlotState where
  votes : VoteRecord
  certificates : SlotCertificates
  s2n_ready : List Nat
deriving DecidableEq, Repr

/-- A fresh slot state (`SlotState::new`). -/
def SlotState.new : SlotState :=
  { votes := { notar := [], notar_fallback := [], skip := [], skip_fallback := [], finalize := [] }
    certificates :=
      { notar := none, notar_fallback := [], skip := none, fast_finalize := none, finalize := none }
    s2n_ready := [] }

/-- Sum of the stakes of the validators satisfying a predicate; tallies are
sums of stakes of distinct signers (§3, invariants I1/I2). -/
def sumStakeOver (e : EpochInfo) (pred : Nat → Bool) : Nat :=
  Finset.sum (Finset.range e.stakes.length) (fun i => if pred i then e.stake i else 0)

/-- Modelled from the spec: cumulative stake of distinct `Notar`-voters for
one hash (§4.2). -/
def SlotState.notar_stake (e : EpochInfo) (ss : SlotState) (h : Nat) : Nat :=
  sumStakeOver e (fun i =>
    ss.votes.notar.any (fun w => decide (w.signer = i) && decide (w.kind = VoteKind.notar h)))

/-- Modelled from the spec: cumulative stake of distinct `Notar` plus
`NotarFallback` voters for one hash (§4.2). -/
def SlotState.notar_fallback_stake (e : EpochInfo) (ss : SlotState) (h : Nat) : Nat :=
  sumStakeOver e (fun i =>
    ss.votes.notar.any (fun w => decide (w.signer = i) && decide (w.kind = VoteKind.notar h))
    || ss.votes.notar_fallback.any
      (fun w => decide (w.signer = i) && decide (w.kind = VoteKind.notarFallback h)))

/-- Modelled from the spec: cumulative stake of distinct `Skip` plus
`SkipFallback` voters (§4.2). -/
def SlotState.skip_stake (e : EpochInfo) (ss : SlotState) : Nat :=
  sumStakeOver e (fun i =>
    ss.votes.skip.any (fun w => decide (w.signer = i))
    || ss.votes.skip_fallback.any (fun w => decide (w.signer = i)))

/-- Modelled from the spec: cumulative stake of distinct `Final` voters (§4.2). -/
def SlotState.final_stake (e : EpochInfo) (ss : SlotState) : Nat :=
  sumStakeOver e (fun i => ss.votes.finalize.any (fun w => decide (w.signer = i)))

/-- Whether some vote in the list was signed by the given validator. -/
def has_vote_by (l : List Vote) (i : Nat) : Bool := l.any (fun w => decide (w.signer = i))

/-- Modelled from the spec: the slashable-offence check of §4.1, evaluated
before admission.  Depends only on the vote record. -/
def check_slashable_votes (slot : Nat) (r : VoteRecord) (v : Vote) : Option SlashableOffence :=
  match v.kind with
  | VoteKind.notar h =>
    if r.notar.any (fun w => decide (w.signer = v.signer) && !(decide (w.kind = VoteKind.notar h)))
    then some (SlashableOffence.notarDifferentHash v.signer slot)
    else if has_vote_by r.skip v.signer then some (SlashableOffence.skipAndNotarize v.signer slot)
    else none
  | VoteKind.notarFallback _ =>
    if has_vote_by r.finalize v.signer
    then some (SlashableOffence.notarFallbackAndFinalize v.signer slot)
    else none
  | VoteKind.skip =>
    if has_vote_by r.notar v.signer then some (SlashableOffence.skipAndNotarize v.signer slot)
    else if has_vote_by r.finalize v.signer then some (SlashableOffence.skipAndFinalize v.signer slot)
    else none
  | VoteKind.skipFallback =>
    if has_vote_by r.finalize v.signer then some (SlashableOffence.skipAndFinalize v.signer slot)
    else none
  | VoteKind.final =>
    if has_vote_by r.skip v.signer || has_vote_by r.skip_fallback v.signer
    then some (SlashableOffence.skipAndFinalize v.signer slot)
    else if has_vote_by r.notar_fallback v.signer
    then some (SlashableOffence.notarFallbackAndFinalize v.signer slot)
    else none

/-- Modelled from the spec: `SlotState::check_slashable_offence`. -/
def SlotState.check_slashable_offence (slot : Nat) (ss : SlotState) (v : Vote) :
    Option SlashableOffence :=
  check_slashable_votes slot ss.votes v

/-- Modelled from the spec: the §4.1 duplicate policy — a vote is ignored iff
the same signer already has a vote of the same kind (kind includes the hash
for hash-bearing kinds).  Depends only on the vote record. -/
def should_ignore_votes (r : VoteRecord) (v : Vote) : Bool :=
  let l := match v.kind with
    | VoteKind.notar _ => r.notar
    | VoteKind.notarFallback _ => r.notar_fallback
    | VoteKind.skip => r.skip
    | VoteKind.skipFallback => r.skip_fallback
    | VoteKind.final => r.finalize
  l.any (fun w => decide (w.signer = v.signer) && decide (w.kind = v.kind))

/-- Modelled from the spec: `SlotState::should_ignore_vote`. -/
def SlotState.should_ignore_vote (ss : SlotState) (v : Vote) : Bool :=
  should_ignore_votes ss.votes v

/-- Modelled from the spec: add the vote to the per-kind record (§4.1
"Admission: add to record"). -/
def SlotState.record_vote (ss : SlotState) (v : Vote) : SlotState :=
  match v.kind with
  | VoteKind.notar _ => { ss with votes := { ss.votes with notar := ss.votes.notar ++ [v] } }
  | VoteKind.notarFallback _ =>
    { ss with votes := { ss.votes with notar_fallback := ss.votes.notar_fallback ++ [v] } }
  | VoteKind.skip => { ss with votes := { ss.votes with skip := ss.votes.skip ++ [v] } }
  | VoteKind.skipFallback =>
    { ss with votes := { ss.votes with skip_fallback := ss.votes.skip_fallback ++ [v] } }
  | VoteKind.final => { ss with votes := { ss.votes with finalize := ss.votes.finalize ++ [v] } }

/-- Whether the slot state already holds a notar-fallback certificate for
the given hash. -/
def SlotState.has_nf_cert (ss : SlotState) (h : Nat) : Bool :=
  ss.certificates.notar_fallback.any (fun c => decide (c.kind = CertKind.notarFallback h))

/-- Modelled from the spec: `SlotState::add_vote` — record the admitted vote,
then return the certificates newly crossing their §4.2 thresholds (emitted
once per kind/hash: only when no such certificate exists yet) and the
voter-facing events (§4.3). -/
def SlotState.add_vote (e : EpochInfo) (slot : Nat) (ss : SlotState) (v : Vote) :
    SlotState × List Cert × List VotorEvent :=
  let ss1 := ss.record_vote v
  match v.kind with
  | VoteKind.notar h =>
    let newNotar : List Cert :=
      if SlotState.notar_stake e ss1 h * 5 > e.total_stake * 3 ∧ ss1.certificates.notar = none
      then [{ slot := slot, kind := CertKind.notar h, sig_ok := true }] else []
    let newNf : List Cert :=
      if SlotState.notar_fallback_stake e ss1 h * 5 > e.total_stake * 2
          ∧ SlotState.has_nf_cert ss1 h = false
      then [{ slot := slot, kind := CertKind.notarFallback h, sig_ok := true }] else []
    let newFf : List Cert :=
      if SlotState.notar_stake e ss1 h * 5 > e.total_stake * 4
          ∧ ss1.certificates.fast_finalize = none
      then [{ slot := slot, kind := CertKind.fastFinal h, sig_ok := true }] else []
    let evs : List VotorEvent :=
      if newNotar = [] then [] else [VotorEvent.blockNotarized slot h]
    (ss1, newNotar ++ newNf ++ newFf, evs)
  | VoteKind.notarFallback h =>
    let newNf : List Cert :=
      if SlotState.notar_fallback_stake e ss1 h * 5 > e.total_stake * 2
          ∧ SlotState.has_nf_cert ss1 h = false
      then [{ slot := slot, kind := CertKind.notarFallback h, sig_ok := true }] else []
    (ss1, newNf, [])
  | VoteKind.skip =>
    let newSkip : List Cert :=
      if SlotState.skip_stake e ss1 * 5 > e.total_stake * 3 ∧ ss1.certificates.skip = none
      then [{ slot := slot, kind := CertKind.skip, sig_ok := true }] else []
    (ss1, newSkip, [])
  | VoteKind.skipFallback =>
    let newSkip : List Cert :=
      if SlotState.skip_stake e ss1 * 5 > e.total_stake * 3 ∧ ss1.certificates.skip = none
      then [{ slot := slot, kind := CertKind.skip, sig_ok := true }] else []
    (ss1, newSkip, [])
  | VoteKind.final =>
    let newFinal : List Cert :=
      if SlotState.final_stake e ss1 * 5 > e.total_stake * 3 ∧ ss1.certificates.finalize = none
      then [{ slot := slot, kind := CertKind.final, sig_ok := true }] else []
    (ss1, newFinal, [])

/-- Modelled from the spec: `SlotState::add_cert` installs a certificate
into the per-kind fields (§3: at most one per kind, one notar-fallback per
distinct hash). -/
def SlotState.add_cert (ss : SlotState) (c : Cert) : SlotState :=
  match c.kind with
  | CertKind.notar _ => { ss with certificates := { ss.certificates with notar := some c } }
  | CertKind.notarFallback h =>
    if SlotState.has_nf_cert ss h then ss
    else { ss with
      certificates :=
        { ss.certificates with notar_fallback := ss.certificates.notar_fallback ++ [c] } }
  | CertKind.skip => { ss with certificates := { ss.certificates with skip := some c } }
  | CertKind.fastFinal _ =>
    { ss with certificates := { ss.certificates with fast_finalize := some c } }
  | CertKind.final => { ss with certificates := { ss.certificates with finalize := some c } }

/-- Modelled from the spec: `SlotState::is_notar_fallback(&hash)` — the block
with this hash is at least notar-fallback certified in this slot state. -/
def SlotState.is_notar_fallback (ss : SlotState) (h : Nat) : Bool :=
  (match ss.certificates.notar with
   | some c => decide (c.kind = CertKind.notar h)
   | none => false)
  || ss.certificates.notar_fallback.any (fun c => decide (c.kind = CertKind.notarFallback h))

/-- Modelled from the spec: `SlotState::notify_parent_certified` may or may
not yield a `SafeToNotar` event, depending on the vote-upgrade conditions
encoded in the slot state (§4.3); modelled by the `s2n_ready` field. -/
def SlotState.notify_parent_certified (slot : Nat) (ss : SlotState) (child_hash : Nat) :
    Option VotorEvent :=
  if ss.s2n_ready.contains child_hash then some (VotorEvent.safeToNotar slot child_hash) else none

/-- Modelled from the spec (`parent_ready_tracker.rs` is not in the
sources): tracker state — notar-fallback-certified blocks and skip-certified
slots (§4.4). -/
structure ParentReadyTracker where
  nf_certified : List (Nat × Nat)
  skipped : List Nat
deriving DecidableEq, Repr

/-- Fresh tracker (`ParentReadyTracker::new`). -/
def ParentReadyTracker.new : ParentReadyTracker := { nf_certified := [], skipped := [] }

/-- Consecutive candidate child slots starting at `c`: `c` itself, extended
past every skip-certified slot (bounded by fuel). -/
def skip_chain_children (skipped : List Nat) : Nat → Nat → List Nat
  | 0, c => [c]
  | fuel + 1, c =>
    if skipped.contains c then c :: skip_chain_children skipped fuel (c + 1) else [c]

/-- Whether all slots in `[a, b)` are skip-certified in the tracker. -/
def tracker_all_skipped (t : ParentReadyTracker) (a b : Nat) : Bool :=
  (List.range' a (b - a)).all (fun x => t.skipped.contains x)

/-- Modelled from the spec (§4.4, P4): `(p, h)` is ready for child slot `c`
iff the parent is notar-fallback certified and every slot strictly between
them is skip-certified. -/
def tracker_is_ready (t : ParentReadyTracker) (c p : Nat) : Bool :=
  decide (p < c) && tracker_all_skipped t (p + 1) c

/-- Modelled from the spec: `ParentReadyTracker::parents_ready`. -/
def ParentReadyTracker.parents_ready (t : ParentReadyTracker) (c : Nat) : List (Nat × Nat) :=
  t.nf_certified.filter (fun ph => tracker_is_ready t c ph.1)

/-- Modelled from the spec: `ParentReadyTracker::mark_notar_fallback` —
register the block and return the newly enabled
`(childSlot, (parentSlot, parentHash))` pairs (§4.4). -/
def ParentReadyTracker.mark_notar_fallback (t : ParentReadyTracker) (ph : Nat × Nat) :
    ParentReadyTracker × List (Nat × (Nat × Nat)) :=
  let t' := { t with nf_certified := ph :: t.nf_certified }
  let cs := skip_chain_children t'.skipped (t'.skipped.length + 1) (ph.1 + 1)
  (t', cs.map (fun c => (c, ph)))

/-- Modelled from the spec: `ParentReadyTracker::mark_skipped` — register the
skip and return the newly enabled pairs (§4.4). -/
def ParentReadyTracker.mark_skipped (t : ParentReadyTracker) (s : Nat) :
    ParentReadyTracker × List (Nat × (Nat × Nat)) :=
  let t' := { t with skipped := s :: t.skipped }
  let cs := skip_chain_children t'.skipped (t'.skipped.length + 1) (s + 1)
  (t', cs.foldr (fun c acc =>
    (t'.nf_certified.filter
      (fun ph => tracker_is_ready t' c ph.1 && !(tracker_is_ready t c ph.1))).map
      (fun ph => (c, ph)) ++ acc) [])

/-- Uppercase hex (and decimal) digit character, as produced by Rust's
`{:016X}` and `{}` format specifiers. -/
def hexDigitChar (n : Nat) : Char :=
  if n < 10 then Char.ofNat (48 + n) else Char.ofNat (55 + n)

/-- Big-endian base-`base` digits of `n`, padded/truncated to exactly `k`
digits (most significant first). -/
def toDigitsBE (base : Nat) : Nat → Nat → List Nat
  | 0, _ => []
  | k + 1, n => toDigitsBE base k (n / base) ++ [n % base]

/-- Value of a big-endian digit list. -/
def fromDigitsBE (base : Nat) (ds : List Nat) : Nat :=
  ds.foldl (fun a d => a * base + d) 0

/-- Kind byte used in the durable-store key (`pool.rs`, `add_valid_cert`):
`Notar = 0`, `NotarFallback = 1`, `Skip = 2`, `FastFinal = 3`, `Final = 4`. -/
def cert_kind_byte (c : Cert) : Nat :=
  match c.kind with
  | CertKind.notar _ => 0
  | CertKind.notarFallback _ => 1
  | CertKind.skip => 2
  | CertKind.fastFinal _ => 3
  | CertKind.final => 4

/-- Declared from the spec's words, for comparison with `cert_kind_byte`:
"a single ASCII digit 0-4 encoding `Notar|NotarFallback|Skip|FastFinal|Final`". -/
def spec_cert_kind_digit : CertKind → Nat
  | CertKind.notar _ => 0
  | CertKind.notarFallback _ => 1
  | CertKind.skip => 2
  | CertKind.fastFinal _ => 3
  | CertKind.final => 4

/-- The 16 upper-case hex characters of a slot, as produced by `{:016X}`. -/
def slot_hex16 (slot : Nat) : List Char := (toDigitsBE 16 16 slot).map hexDigitChar

/-- Characters of the durable-store certificate key
`format!("cert|{:016X}|{}", slot, kind_byte)` (`pool.rs`, `add_valid_cert`). -/
def cert_db_key_chars (c : Cert) : List Char :=
  "cert|".data ++ slot_hex16 c.slot ++ "|".data ++ [hexDigitChar (cert_kind_byte c)]

/-- Durable-store certificate key as a string. -/
def cert_db_key (c : Cert) : String := String.mk (cert_db_key_chars c)

/-- The 8-byte big-endian encoding of a `u64` (`u64::to_be_bytes`). -/
def u64_to_be_bytes (n : Nat) : List Nat := toDigitsBE 256 8 n

/-- The value of 8 big-endian bytes (`u64::from_be_bytes`,
`pool.rs` `load_from_db`). -/
def u64_from_be_bytes (bs : List Nat) : Nat := fromDigitsBE 256 bs

/-- Value of a hex character (inverse of `hexDigitChar` on digits 0-15). -/
def hexCharVal (ch : Char) : Nat :=
  if ch.toNat ≤ 57 then ch.toNat - 48 else ch.toNat - 55

/-- The pool (`pool.rs`, `Pool`).  Channels (`votor_event_channel`,
`repair_channel`) are modelled as accumulated lists of sent messages, and
the RocksDB handle as the accumulated list of `put` calls. -/
structure Pool where
  slot_states : List (Nat × SlotState)
  parent_ready_tracker : ParentReadyTracker
  s2n_waiting_parent_cert : List ((Nat × Nat) × (Nat × Nat))
  highest_notarized_fallback_slot : Nat
  highest_finalized_slot : Nat
  epoch_info : EpochInfo
  votor_events : List VotorEvent
  repair_out : List (Nat × Nat)
  db_puts : List (String × Cert)
deriving DecidableEq, Repr

/-- A fresh pool with no votes or certificates (`Pool::new` over an empty
durable store, where `load_from_db` finds nothing). -/
def Pool.new (e : EpochInfo) : Pool :=
  { slot_states := []
    parent_ready_tracker := ParentReadyTracker.new
    s2n_waiting_parent_cert := []
    highest_notarized_fallback_slot := 0
    highest_finalized_slot := 0
    epoch_info := e
    votor_events := []
    repair_out := []
    db_puts := [] }

/-- Read accessor for a slot's state, defaulting to a fresh state
(the read side of `Pool::slot_state`'s `or_insert_with`). -/
def Pool.slot_state_get (p : Pool) (slot : Nat) : SlotState :=
  (lookupKV p.slot_states slot).getD SlotState.new

/-- `Pool::slot_state`: get the entry for the slot, inserting a fresh
`SlotState` if absent (`BTreeMap::entry(..).or_insert_with`). -/
def Pool.ensure_slot_state (p : Pool) (slot : Nat) : Pool :=
  { p with slot_states := insertKV p.slot_states slot (p.slot_state_get slot) }

/-- Overwrite a slot's state. -/
def Pool.set_slot_state (p : Pool) (slot : Nat) (ss : SlotState) : Pool :=
  { p with slot_states := insertKV p.slot_states slot ss }

/-- The slot-bounds test of `Pool::add_vote` / `Pool::add_cert`
(`pool.rs` lines 137-139 and 298-300): rejected iff
`slot < highest_finalized_slot || slot == highest_finalized_slot + 2 * SLOTS_PER_EPOCH`. -/
def slot_out_of_bounds (hfs slot : Nat) : Bool :=
  decide (slot < hfs) || decide (slot = hfs + 2 * SLOTS_PER_EPOCH)

/-- `Pool::prune`: keep exactly the slot states with slot
`>= highest_finalized_slot` (`BTreeMap::split_off`). -/
def Pool.prune (p : Pool) : Pool :=
  { p with slot_states := p.slot_states.filter (fun x => decide (p.highest_finalized_slot ≤ x.1)) }

/-- `Pool::add_valid_cert`: persist the certificate, install it into the
slot state, do the kind-dependent follow-up (pending-child notification and
tracker update for notar kinds, tracker update for skip, finalization-cursor
update and pruning for the finalization kinds), then emit `CertCreated`.
The blockstore timestamp annotation is external observability and is not
modelled. -/
def Pool.add_valid_cert (p : Pool) (c : Cert) : Pool :=
  let slot := c.slot
  let p1 := { p with db_puts := p.db_puts ++ [(cert_db_key c, c)] }
  let p2 := p1.set_slot_state slot (SlotState.add_cert (p1.slot_state_get slot) c)
  let p3 :=
    match c.kind with
    | CertKind.notar bh | CertKind.notarFallback bh =>
      let pa :=
        match lookupKV p2.s2n_waiting_parent_cert (slot, bh) with
        | some cd =>
          let pr := { p2 with
            s2n_waiting_parent_cert :=
              eraseKV p2.s2n_waiting_parent_cert (slot, bh) }
          let pr1 := pr.ensure_slot_state cd.1
          match SlotState.notify_parent_certified cd.1 (pr1.slot_state_get cd.1) cd.2 with
          | some ev => { pr1 with votor_events := pr1.votor_events ++ [ev] }
          | none => pr1
        | none => p2
      let tr := pa.parent_ready_tracker.mark_notar_fallback (slot, bh)
      let pb := { pa with
        parent_ready_tracker := tr.1
        votor_events :=
          pa.votor_events ++ tr.2.map (fun (x : Nat × (Nat × Nat)) => VotorEvent.parentReady x.1 x.2.1 x.2.2) }
      { pb with
        highest_notarized_fallback_slot := max slot pb.highest_notarized_fallback_slot }
    | CertKind.skip =>
      let tr := p2.parent_ready_tracker.mark_skipped slot
      { p2 with
        parent_ready_tracker := tr.1
        votor_events :=
          p2.votor_events ++ tr.2.map (fun (x : Nat × (Nat × Nat)) => VotorEvent.parentReady x.1 x.2.1 x.2.2) }
    | CertKind.fastFinal _ | CertKind.final =>
      let pa := { p2 with highest_finalized_slot := max slot p2.highest_finalized_slot }
      pa.prune
  { p3 with votor_events := p3.votor_events ++ [VotorEvent.certCreated c] }

/-- `Pool::add_vote`: bounds check, repair-channel side effect, signature
check, slashable-offence and duplicate checks, admission, then installation
of every newly produced certificate and forwarding of the voter events. -/
def Pool.add_vote (p : Pool) (v : Vote) : Option PoolError × Pool :=
  let slot := v.slot
  if slot_out_of_bounds p.highest_finalized_slot slot then (some PoolError.slotOutOfBounds, p)
  else
    let pr :=
      match v.block_hash with
      | some h => { p with repair_out := p.repair_out ++ [(slot, h)] }
      | none => p
    if v.sig_ok = false then (some PoolError.invalidSignature, pr)
    else
      let p1 := pr.ensure_slot_state slot
      let ss := p1.slot_state_get slot
      match SlotState.check_slashable_offence slot ss v with
      | some off => (some (PoolError.slashable off), p1)
      | none =>
        if SlotState.should_ignore_vote ss v then (some PoolError.duplicate, p1)
        else
          let r := SlotState.add_vote p1.epoch_info slot ss v
          let p2 := p1.set_slot_state slot r.1
          let p3 := r.2.1.foldl Pool.add_valid_cert p2
          (none, { p3 with votor_events := p3.votor_events ++ r.2.2 })

/-- `Pool::add_cert`: bounds check, signature check, duplicate check against
the slot's existing certificates, then `add_valid_cert`. -/
def Pool.add_cert (p : Pool) (c : Cert) : Option PoolError × Pool :=
  let slot := c.slot
  if slot_out_of_bounds p.highest_finalized_slot slot then (some PoolError.slotOutOfBounds, p)
  else if c.sig_ok = false then (some PoolError.invalidSignature, p)
  else
    let p1 := p.ensure_slot_state slot
    let certs := (p1.slot_state_get slot).certificates
    let dup : Bool :=
      match c.kind with
      | CertKind.notar _ => certs.notar.isSome
      | CertKind.notarFallback h =>
        certs.notar_fallback.any (fun nf => decide (nf.block_hash = some h))
      | CertKind.skip => certs.skip.isSome
      | CertKind.fastFinal _ => certs.fast_finalize.isSome
      | CertKind.final => certs.finalize.isSome
    if dup then (some PoolError.duplicate, p1)
    else (none, p1.add_valid_cert c)

/-- `Pool::add_block`: if the parent is already at least notar-fallback in
its slot state and notifying the child produces an event, send it and stop;
in every other case record the pending mapping in
`s2n_waiting_parent_cert`. -/
def Pool.add_block (p : Pool) (slot : Nat) (bi : BlockInfo) : Pool :=
  let insert_pending := fun (q : Pool) =>
    { q with
      s2n_waiting_parent_cert :=
        insertKV q.s2n_waiting_parent_cert (bi.parent_slot, bi.parent_hash) (slot, bi.hash) }
  match lookupKV p.slot_states bi.parent_slot with
  | some parent_state =>
    if parent_state.is_notar_fallback bi.parent_hash then
      let p1 := p.ensure_slot_state slot
      match SlotState.notify_parent_certified slot (p1.slot_state_get slot) bi.hash with
      | some ev => { p1 with votor_events := p1.votor_events ++ [ev] }
      | none => insert_pending p1
    else insert_pending p
  | none => insert_pending p

/-- Certificates of one slot state, in the order `Pool::get_certs` collects
them: finalize, fast-finalize, notar, notar-fallbacks, skip. -/
def state_certs (ss : SlotState) : List Cert :=
  ss.certificates.finalize.toList ++ ss.certificates.fast_finalize.toList
    ++ ss.certificates.notar.toList ++ ss.certificates.notar_fallback
    ++ ss.certificates.skip.toList

/-- `Pool::get_certs` body: every certificate in slot states with slot
`>= slot` (`slot_states.range(slot..)`). -/
def get_certs_from (l : List (Nat × SlotState)) (slot : Nat) : List Cert :=
  match l with
  | [] => []
  | e :: r => (if slot ≤ e.1 then state_certs e.2 else []) ++ get_certs_from r slot

/-- `Pool::get_certs`. -/
def Pool.get_certs (p : Pool) (slot : Nat) : List Cert :=
  get_certs_from p.slot_states slot

/-- All votes recorded in one slot state, in the order `Pool::get_own_votes`
visits the per-kind records: finalize, notar, notar-fallback, skip,
skip-fallback. -/
def state_votes (ss : SlotState) : List Vote :=
  ss.votes.finalize ++ ss.votes.notar ++ ss.votes.notar_fallback
    ++ ss.votes.skip ++ ss.votes.skip_fallback

/-- This validator's own votes in one slot state. -/
def state_own_votes (own : Nat) (ss : SlotState) : List Vote :=
  (state_votes ss).filter (fun v => decide (v.signer = own))

/-- `Pool::get_own_votes` body. -/
def get_own_votes_from (own : Nat) (l : List (Nat × SlotState)) (slot : Nat) : List Vote :=
  match l with
  | [] => []
  | e :: r => (if slot ≤ e.1 then state_own_votes own e.2 else []) ++ get_own_votes_from own r slot

/-- `Pool::get_own_votes`. -/
def Pool.get_own_votes (p : Pool) (slot : Nat) : List Vote :=
  get_own_votes_from p.epoch_info.own_id p.slot_states slot

/-- `Pool::recover_from_standstill`: collect the certificates at slots
`>= highest_finalized_slot` and the own votes at slots
`>= highest_finalized_slot + 1`, and send the single `Standstill` event. -/
def Pool.recover_from_standstill (p : Pool) : List VotorEvent :=
  let slot := p.highest_finalized_slot
  [VotorEvent.standstill (slot + 1) (p.get_certs slot) (p.get_own_votes (slot + 1))]

/-- `Pool::finalized_slot`. -/
def Pool.finalized_slot (p : Pool) : Nat := p.highest_finalized_slot

/-- `Pool::is_finalized`. -/
def Pool.is_finalized (p : Pool) (slot : Nat) : Bool :=
  match lookupKV p.slot_states slot with
  | some st => st.certificates.fast_finalize.isSome || st.certificates.finalize.isSome
  | none => false

/-- `Pool::is_notarized`. -/
def Pool.is_notarized (p : Pool) (slot : Nat) : Bool :=
  match lookupKV p.slot_states slot with
  | some st => st.certificates.notar.isSome
  | none => false

/-- `Pool::is_notarized_fallback`. -/
def Pool.is_notarized_fallback (p : Pool) (slot : Nat) : Bool :=
  match lookupKV p.slot_states slot with
  | some st => st.certificates.notar.isSome || !st.certificates.notar_fallback.isEmpty
  | none => false

/-- `Pool::is_skip_certified`. -/
def Pool.is_skip_certified (p : Pool) (slot : Nat) : Bool :=
  match lookupKV p.slot_states slot with
  | some st => st.certificates.skip.isSome
  | none => false

/-- `Pool::slot_states_len`. -/
def Pool.slot_states_len (p : Pool) : Nat := p.slot_states.length

/-- Apply a list of votes through `Pool::add_vote`, discarding results. -/
def Pool.apply_votes (p : Pool) (vs : List Vote) : Pool :=
  vs.foldl (fun q v => (Pool.add_vote q v).2) p

/-- One pool mutation, for stating invariants over call sequences. -/
inductive PoolOp where
  | vote (v : Vote)
  | cert (c : Cert)
  | block (slot : Nat) (bi : BlockInfo)
  | prune_op
  | valid_cert (c : Cert)
deriving DecidableEq, Repr

/-- Apply one pool mutation. -/
def Pool.apply_op (p : Pool) : PoolOp → Pool
  | PoolOp.vote v => (Pool.add_vote p v).2
  | PoolOp.cert c => (Pool.add_cert p c).2
  | PoolOp.block s bi => Pool.add_block p s bi
  | PoolOp.prune_op => Pool.prune p
  | PoolOp.valid_cert c => Pool.add_valid_cert p c

/-- Apply a sequence of pool mutations. -/
def Pool.apply_ops (p : Pool) (ops : List PoolOp) : Pool :=
  ops.foldl Pool.apply_op p

/-- Whether the pool holds a `Notar` certificate for `(slot, hash)`. -/
def Pool.has_notar_cert (p : Pool) (slot h : Nat) : Bool :=
  match (p.slot_state_get slot).certificates.notar with
  | some c => decide (c.kind = CertKind.notar h)
  | none => false

/-- Whether the pool holds a `FastFinal` certificate for `(slot, hash)`. -/
def Pool.has_fast_final_cert (p : Pool) (slot h : Nat) : Bool :=
  match (p.slot_state_get slot).certificates.fast_finalize with
  | some c => decide (c.kind = CertKind.fastFinal h)
  | none => false

/-- Whether the pool holds a `Skip` certificate for the slot. -/
def Pool.has_skip_cert (p : Pool) (slot : Nat) : Bool :=
  (p.slot_state_get slot).certificates.skip.isSome

/-- Whether the pool holds a `Final` certificate for the slot. -/
def Pool.has_final_cert (p : Pool) (slot : Nat) : Bool :=
  (p.slot_state_get slot).certificates.finalize.isSome

/-- Cumulative stake of distinct `Notar`-voters for `(slot, hash)` recorded
in the pool. -/
def Pool.notar_voter_stake (p : Pool) (slot h : Nat) : Nat :=
  SlotState.notar_stake p.epoch_info (p.slot_state_get slot) h

/-- Cumulative stake of distinct `Skip`/`SkipFallback`-voters for the slot
recorded in the pool. -/
def Pool.skip_voter_stake (p : Pool) (slot : Nat) : Nat :=
  SlotState.skip_stake p.epoch_info (p.slot_state_get slot)

/-- Cumulative stake of distinct `Final`-voters for the slot recorded in
the pool. -/
def Pool.final_voter_stake (p : Pool) (slot : Nat) : Nat :=
  SlotState.final_stake p.epoch_info (p.slot_state_get slot)

/-- Eleven validators of equal stake 1, as in the end-to-end scenarios of
§8 and the in-repo tests (`generate_validators(11)`). -/
def eleven_equal : EpochInfo := { stakes := List.replicate 11 1, own_id := 0 }

/-- A valid notarization vote. -/
def notar_vote (slot h i : Nat) : Vote :=
  { slot := slot, signer := i, kind := VoteKind.notar h, sig_ok := true }

/-- A valid notar-fallback vote. -/
def notar_fallback_vote (slot h i : Nat) : Vote :=
  { slot := slot, signer := i, kind := VoteKind.notarFallback h, sig_ok := true }

/-- A valid skip vote. -/
def skip_vote (slot i : Nat) : Vote :=
  { slot := slot, signer := i, kind := VoteKind.skip, sig_ok := true }

/-- A valid skip-fallback vote. -/
def skip_fallback_vote (slot i : Nat) : Vote :=
  { slot := slot, signer := i, kind := VoteKind.skipFallback, sig_ok := true }

/-- A valid finalization vote. -/
def final_vote (slot i : Nat) : Vote :=
  { slot := slot, signer := i, kind := VoteKind.final, sig_ok := true }

/-- The first `k` validators' votes built by `f`. -/
def votes_from (f : Nat → Vote) (k : Nat) : List Vote :=
  (List.range k).map f

/-- Whether a certificate is of a finalization kind (`FastFinal` or `Final`),
i.e. triggers the finalization-cursor update and pruning in
`Pool::add_valid_cert`. -/
def cert_is_finalization (c : Cert) : Bool :=
  match c.kind with
  | CertKind.fastFinal _ => true
  | CertKind.final => true
  | _ => false

/-- A sample pool with a finalized cursor past slot 0 and a leftover state
at slot 0, used to instantiate pruning theorems. -/
def sample_pruned_pool : Pool :=
  { Pool.new eleven_equal with
    highest_finalized_slot := 1
    slot_states := [(0, SlotState.new)] }

/-- A slot state holding a notarization certificate for hash 5 at slot 0
(so hash 5 is at least notar-fallback certified), with no `SafeToNotar`
trigger pending in any child. -/
def c8_parent_state : SlotState :=
  { SlotState.new with
    certificates :=
      { SlotState.new.certificates with
        notar := some { slot := 0, kind := CertKind.notar 5, sig_ok := true } } }

/-- A pool whose slot 0 holds a notarization certificate for hash 5. -/
def c8_pool : Pool :=
  { Pool.new eleven_equal with slot_states := [(0, c8_parent_state)] }

/-- A block at slot 1 with hash 7 announcing parent `(0, 5)`. -/
def c8_block_info : BlockInfo := { hash := 7, parent_slot := 0, parent_hash := 5 }

/-- The parent-certified test performed at the top of `Pool::add_block`. -/
def add_block_parent_certified (p : Pool) (bi : BlockInfo) : Bool :=
  match lookupKV p.slot_states bi.parent_slot with
  | some ps => ps.is_notar_fallback bi.parent_hash
  | none => false

/-- Claim C9's entry-creation assertion, as stated: some `add_vote` call
returning `Slashable` or `Duplicate`, or some `add_cert` call returning
`Duplicate`, finds no `slot_states` entry for its slot and creates one
(`slot_states_len` increases). -/
def c9_entry_creation_claim : Prop :=
  (∃ (p : Pool) (v : Vote),
    ((Pool.add_vote p v).1 = some PoolError.duplicate
      ∨ ∃ o, (Pool.add_vote p v).1 = some (PoolError.slashable o))
    ∧ lookupKV p.slot_states v.slot = none
    ∧ p.slot_states_len < (Pool.add_vote p v).2.slot_states_len)
  ∨ (∃ (p : Pool) (c : Cert),
    (Pool.add_cert p c).1 = some PoolError.duplicate
    ∧ lookupKV p.slot_states c.slot = none
    ∧ p.slot_states_len < (Pool.add_cert p c).2.slot_states_len)

/-- Whether the slot state holds a `Notar` certificate for the hash. -/
def ss_notar_cert (ss : SlotState) (h : Nat) : Bool :=
  match ss.certificates.notar with
  | some c => decide (c.kind = CertKind.notar h)
  | none => false

/-- Whether the slot state holds a `FastFinal` certificate for the hash. -/
def ss_ff_cert (ss : SlotState) (h : Nat) : Bool :=
  match ss.certificates.fast_finalize with
  | some c => decide (c.kind = CertKind.fastFinal h)
  | none => false

/-- Whether validator `i` has a recorded `Notar` vote for hash `h`. -/
def ss_has_notar_vote (ss : SlotState) (i h : Nat) : Bool :=
  ss.votes.notar.any (fun w => decide (w.signer = i) && decide (w.kind = VoteKind.notar h))

/-- Whether validator `i` has a recorded `Skip` or `SkipFallback` vote. -/
def ss_has_skip_vote (ss : SlotState) (i : Nat) : Bool :=
  ss.votes.skip.any (fun w => decide (w.signer = i))
  || ss.votes.skip_fallback.any (fun w => decide (w.signer = i))

/-- Whether validator `i` has a recorded `Final` vote. -/
def ss_has_final_vote (ss : SlotState) (i : Nat) : Bool :=
  ss.votes.finalize.any (fun w => decide (w.signer = i))

/-- Whether a certificate is of `Notar` kind. -/
def is_notar_cert (c : Cert) : Bool :=
  match c.kind with
  | CertKind.notar _ => true
  | _ => false

/-- Whether a certificate is of `FastFinal` kind. -/
def is_ff_cert (c : Cert) : Bool :=
  match c.kind with
  | CertKind.fastFinal _ => true
  | _ => false

/-- Whether a certificate is of `Skip` kind. -/
def is_skip_kind (c : Cert) : Bool :=
  match c.kind with
  | CertKind.skip => true
  | _ => false

/-- Whether a certificate is of `Final` kind. -/
def is_final_kind (c : Cert) : Bool :=
  match c.kind with
  | CertKind.final => true
  | _ => false

/-- Whether a pending-certificate list holds a `Notar` certificate for `h`. -/
def pend_notar (pend : List Cert) (h : Nat) : Bool :=
  pend.any (fun c => decide (c.kind = CertKind.notar h))

/-- Whether a pending-certificate list holds a `FastFinal` certificate for `h`. -/
def pend_ff (pend : List Cert) (h : Nat) : Bool :=
  pend.any (fun c => decide (c.kind = CertKind.fastFinal h))

/-- Threshold invariant of one slot state, relative to a list of
certificates that crossed their §4.2 thresholds but are not yet installed:
a certificate of each claimed kind is present (or pending) exactly when the
corresponding tally of distinct-voter stake exceeds its threshold.  The
remaining fields record the §3 well-formedness facts that make the
invariant inductive. -/
structure PendOk (e : EpochInfo) (ss : SlotState) (pend : List Cert) : Prop where
  notar_iff : ∀ h, (ss_notar_cert ss h = true ∨ pend_notar pend h = true)
    ↔ SlotState.notar_stake e ss h * 5 > e.total_stake * 3
  ff_iff : ∀ h, (ss_ff_cert ss h = true ∨ pend_ff pend h = true)
    ↔ SlotState.notar_stake e ss h * 5 > e.total_stake * 4
  skip_iff : (ss.certificates.skip.isSome = true ∨ pend.any is_skip_kind = true)
    ↔ SlotState.skip_stake e ss * 5 > e.total_stake * 3
  final_iff : (ss.certificates.finalize.isSome = true ∨ pend.any is_final_kind = true)
    ↔ SlotState.final_stake e ss * 5 > e.total_stake * 3
  record_ok : ∀ i h1 h2, ss_has_notar_vote ss i h1 = true → ss_has_notar_vote ss i h2 = true →
    h1 = h2
  notar_wf : ∀ c0, ss.certificates.notar = some c0 → is_notar_cert c0 = true
  ff_wf : ∀ c0, ss.certificates.fast_finalize = some c0 → is_ff_cert c0 = true
  disj_notar : pend.any is_notar_cert = true → ss.certificates.notar = none
  disj_ff : pend.any is_ff_cert = true → ss.certificates.fast_finalize = none
  disj_skip : pend.any is_skip_kind = true → ss.certificates.skip = none
  disj_final : pend.any is_final_kind = true → ss.certificates.finalize = none
  cnt_notar : pend.countP is_notar_cert ≤ 1
  cnt_ff : pend.countP is_ff_cert ≤ 1
  cnt_skip : pend.countP is_skip_kind ≤ 1
  cnt_final : pend.countP is_final_kind ≤ 1

/-- Threshold invariant of one slot state with no pending certificates. -/
def SlotOkState (e : EpochInfo) (ss : SlotState) : Prop := PendOk e ss []

/-- Pool-wide threshold invariant along vote-only runs: every slot state
satisfies the threshold invariant, and no block is waiting for a parent
certificate (votes alone never register blocks). -/
def PoolOk (p : Pool) : Prop :=
  (∀ slot, SlotOkState p.epoch_info (p.slot_state_get slot))
  ∧ p.s2n_waiting_parent_cert = []

/-- The two-vote slashing experiment of §4.1/P3: starting from a fresh pool,
the first vote is admitted, the second returns `Slashable(off)` and leaves
`slot_states` (hence every vote record and tally) unchanged. -/
def slashing_pair_detected (e : EpochInfo) (v1 v2 : Vote) (off : SlashableOffence) : Prop :=
  (Pool.add_vote (Pool.new e) v1).1 = none
  ∧ (Pool.add_vote ((Pool.add_vote (Pool.new e) v1).2) v2).1 = some (PoolError.slashable off)
  ∧ (Pool.add_vote ((Pool.add_vote (Pool.new e) v1).2) v2).2.slot_states =
      ((Pool.add_vote (Pool.new e) v1).2).slot_states

/-! ### Association-list lemmas -/

theorem lookupKV_insertKV_self {κ α : Type} [DecidableEq κ] (l : List (κ × α)) (k : κ) (a : α) :
    lookupKV (insertKV l k a) k = some a := by
  induction l with
  | nil => simp [insertKV, lookupKV]
  | cons e r ih =>
    by_cases he : e.1 = k
    · simp [insertKV, he, lookupKV]
    · simp [insertKV, he, lookupKV, ih]

theorem lookupKV_insertKV_ne {κ α : Type} [DecidableEq κ] (l : List (κ × α)) (k k' : κ) (a : α)
    (h : k' ≠ k) : lookupKV (insertKV l k a) k' = lookupKV l k' := by
  induction l with
  | nil => simp [insertKV, lookupKV, Ne.symm h]
  | cons e r ih =>
    by_cases he : e.1 = k
    · subst he
      simp [insertKV, lookupKV, Ne.symm h]
    · simp [insertKV, he, lookupKV, ih]

theorem insertKV_lookup_self {κ α : Type} [DecidableEq κ] (l : List (κ × α)) (k : κ) (a : α)
    (h : lookupKV l k = some a) : insertKV l k a = l := by
  induction l with
  | nil => simp [lookupKV] at h
  | cons e r ih =>
    by_cases he : e.1 = k
    · simp [lookupKV, he] at h
      subst h
      subst he
      simp [insertKV]
    · simp [lookupKV, he] at h
      simp [insertKV, he, ih h]

theorem length_insertKV_of_isSome {κ α : Type} [DecidableEq κ] (l : List (κ × α)) (k : κ) (a : α)
    (h : (lookupKV l k).isSome = true) : (insertKV l k a).length = l.length := by
  induction l with
  | nil => simp [lookupKV] at h
  | cons e r ih =>
    by_cases he : e.1 = k
    · simp [insertKV, he]
    · simp [lookupKV, he] at h
      simp [insertKV, he, ih h]

theorem lookupKV_filter {κ α : Type} [DecidableEq κ] (f : κ → Bool) (l : List (κ × α)) (k : κ) :
    lookupKV (l.filter (fun e => f e.1)) k = if f k then lookupKV l k else none := by
  induction l with
  | nil => simp [lookupKV]
  | cons e r ih =>
    by_cases he : e.1 = k
    · subst he
      cases hf : f e.1
      · simp [List.filter_cons, hf, ih]
      · simp [List.filter_cons, hf, lookupKV]
    · cases hf : f e.1
      · simp [List.filter_cons, hf, lookupKV, he, ih]
      · simp [List.filter_cons, hf, lookupKV, he, ih]

theorem lookupKV_prune (p : Pool) (s : Nat) :
    lookupKV (Pool.prune p).slot_states s =
      if p.highest_finalized_slot ≤ s then lookupKV p.slot_states s else none := by
  have h := lookupKV_filter (fun k => decide (p.highest_finalized_slot ≤ k)) p.slot_states s
  simp only [Pool.prune]
  simpa using h

/-! ### Claim C2 -/

/-- Claim C2 (code-bug evidence): the bounds check of `Pool::add_vote` and
`Pool::add_cert` compares with `==` instead of `>=`, so the exact slot
`highest_finalized_slot + 2 * SLOTS_PER_EPOCH` is rejected but every slot
strictly beyond it passes the bounds check: a vote and a certificate at slot
`highest_finalized_slot + 2 * SLOTS_PER_EPOCH + 1` are fully admitted
(result `none`, i.e. `Ok`), where the claim and the spec require
`SlotOutOfBounds`. -/
theorem c2_slot_bounds_code_bug :
    slot_out_of_bounds 0 (2 * SLOTS_PER_EPOCH) = true
    ∧ slot_out_of_bounds 0 (2 * SLOTS_PER_EPOCH + 1) = false
    ∧ (Pool.add_vote (Pool.new eleven_equal) (skip_vote (2 * SLOTS_PER_EPOCH + 1) 0)).1 = none
    ∧ (Pool.add_cert (Pool.new eleven_equal)
        { slot := 2 * SLOTS_PER_EPOCH + 1, kind := CertKind.skip, sig_ok := true }).1 = none := by
  decide

/-! ### Claim C10 -/

/-- Claim C10: for every slot strictly below `highest_finalized_slot`, all
four public status queries answer `false` after `prune`, because they answer
`false` for any slot with no `slot_states` entry. -/
theorem c10_finalization_status_forgotten (p : Pool) (s : Nat)
    (hs : s < p.highest_finalized_slot) :
    Pool.is_finalized (Pool.prune p) s = false
    ∧ Pool.is_notarized (Pool.prune p) s = false
    ∧ Pool.is_notarized_fallback (Pool.prune p) s = false
    ∧ Pool.is_skip_certified (Pool.prune p) s = false := by
  have hl : lookupKV (Pool.prune p).slot_states s = none := by
    rw [lookupKV_prune]
    simp [Nat.not_le_of_lt hs]
  simp [Pool.is_finalized, Pool.is_notarized, Pool.is_notarized_fallback, Pool.is_skip_certified,
    hl]

/-- Claim C10 witness: a concrete pool that still has an entry and a
finalization certificate at slot 0 but a finalized cursor at 1. -/
theorem c10_witness :
    0 < sample_pruned_pool.highest_finalized_slot
    ∧ (Pool.is_finalized (Pool.prune sample_pruned_pool) 0 = false
      ∧ Pool.is_notarized (Pool.prune sample_pruned_pool) 0 = false
      ∧ Pool.is_notarized_fallback (Pool.prune sample_pruned_pool) 0 = false
      ∧ Pool.is_skip_certified (Pool.prune sample_pruned_pool) 0 = false) :=
  ⟨by decide, c10_finalization_status_forgotten sample_pruned_pool 0 (by decide)⟩

/-! ### Shape lemmas for `Pool.add_valid_cert` -/

theorem avc_finalization_shape (p : Pool) (c : Cert) (hk : cert_is_finalization c = true) :
    (Pool.add_valid_cert p c).slot_states =
      (insertKV p.slot_states c.slot (SlotState.add_cert (p.slot_state_get c.slot) c)).filter
        (fun x => decide (max c.slot p.highest_finalized_slot ≤ x.1))
    ∧ (Pool.add_valid_cert p c).highest_finalized_slot =
      max c.slot p.highest_finalized_slot := by
  cases hck : c.kind <;> simp [cert_is_finalization, hck] at hk <;>
    simp [Pool.add_valid_cert, hck, Pool.prune, Pool.set_slot_state, Pool.slot_state_get]

/-! ### Claim C4 -/

/-- Claim C4: `prune` keeps exactly the slot states at slots at least
`highest_finalized_slot` (so nothing below survives and everything at or
above is untouched), and `prune` is invoked by the installation of every
finalization certificate: after `add_valid_cert` of a `FastFinal` or
`Final` certificate, no entry below the updated `highest_finalized_slot`
remains. -/
theorem c4_pruning (p : Pool) (c : Cert) (s : Nat)
    (hfin : cert_is_finalization c = true)
    (hs : s < (Pool.add_valid_cert p c).highest_finalized_slot) :
    (∀ s', lookupKV (Pool.prune p).slot_states s' =
      if p.highest_finalized_slot ≤ s' then lookupKV p.slot_states s' else none)
    ∧ lookupKV (Pool.add_valid_cert p c).slot_states s = none := by
  refine ⟨fun s' => lookupKV_prune p s', ?_⟩
  obtain ⟨hst, hhfs⟩ := avc_finalization_shape p c hfin
  rw [hst]
  rw [hhfs] at hs
  have h := lookupKV_filter (fun k => decide (max c.slot p.highest_finalized_slot ≤ k))
    (insertKV p.slot_states c.slot (SlotState.add_cert (p.slot_state_get c.slot) c)) s
  simpa [Nat.not_le_of_lt hs] using h

/-- Claim C4 witness: a `Final` certificate at slot 1 installed into a pool
holding a state at slot 0 prunes the slot-0 entry. -/
theorem c4_witness :
    cert_is_finalization { slot := 1, kind := CertKind.final, sig_ok := true } = true
    ∧ 0 < (Pool.add_valid_cert sample_pruned_pool
        { slot := 1, kind := CertKind.final, sig_ok := true }).highest_finalized_slot
    ∧ ((∀ s', lookupKV (Pool.prune sample_pruned_pool).slot_states s' =
        if sample_pruned_pool.highest_finalized_slot ≤ s'
        then lookupKV sample_pruned_pool.slot_states s' else none)
      ∧ lookupKV (Pool.add_valid_cert sample_pruned_pool
          { slot := 1, kind := CertKind.final, sig_ok := true }).slot_states 0 = none) :=
  ⟨by decide, by decide,
    c4_pruning sample_pruned_pool { slot := 1, kind := CertKind.final, sig_ok := true } 0
      (by decide) (by decide)⟩

/-! ### Claim C3 -/

theorem avc_cursors_le (p : Pool) (c : Cert) :
    p.highest_finalized_slot ≤ (Pool.add_valid_cert p c).highest_finalized_slot
    ∧ p.highest_notarized_fallback_slot ≤
      (Pool.add_valid_cert p c).highest_notarized_fallback_slot := by
  cases hck : c.kind <;>
    simp only [Pool.add_valid_cert, hck, Pool.prune, Pool.set_slot_state,
      Pool.ensure_slot_state, Pool.slot_state_get] <;>
    (repeat' split) <;> simp

theorem foldl_avc_cursors_le (l : List Cert) (p : Pool) :
    p.highest_finalized_slot ≤ (l.foldl Pool.add_valid_cert p).highest_finalized_slot
    ∧ p.highest_notarized_fallback_slot ≤
      (l.foldl Pool.add_valid_cert p).highest_notarized_fallback_slot := by
  induction l generalizing p with
  | nil => simp
  | cons c t ih =>
    have h1 := avc_cursors_le p c
    have h2 := ih (Pool.add_valid_cert p c)
    exact ⟨le_trans h1.1 h2.1, le_trans h1.2 h2.2⟩

theorem cursors_from_foldl (l : List Cert) (q : Pool) (a b : Nat)
    (h1 : q.highest_finalized_slot = a) (h2 : q.highest_notarized_fallback_slot = b) :
    a ≤ (l.foldl Pool.add_valid_cert q).highest_finalized_slot
    ∧ b ≤ (l.foldl Pool.add_valid_cert q).highest_notarized_fallback_slot := by
  have h := foldl_avc_cursors_le l q
  rw [h1, h2] at h
  exact h

theorem cursors_from_avc (c : Cert) (q : Pool) (a b : Nat)
    (h1 : q.highest_finalized_slot = a) (h2 : q.highest_notarized_fallback_slot = b) :
    a ≤ (Pool.add_valid_cert q c).highest_finalized_slot
    ∧ b ≤ (Pool.add_valid_cert q c).highest_notarized_fallback_slot := by
  have h := avc_cursors_le q c
  rw [h1, h2] at h
  exact h

theorem add_vote_cursors_le (p : Pool) (v : Vote) :
    p.highest_finalized_slot ≤ (Pool.add_vote p v).2.highest_finalized_slot
    ∧ p.highest_notarized_fallback_slot ≤
      (Pool.add_vote p v).2.highest_notarized_fallback_slot := by
  simp only [Pool.add_vote]
  repeat' split
  all_goals first
    | exact ⟨Nat.le_refl _, Nat.le_refl _⟩
    | exact cursors_from_foldl _ _ _ _ rfl rfl

theorem add_cert_cursors_le (p : Pool) (c : Cert) :
    p.highest_finalized_slot ≤ (Pool.add_cert p c).2.highest_finalized_slot
    ∧ p.highest_notarized_fallback_slot ≤
      (Pool.add_cert p c).2.highest_notarized_fallback_slot := by
  simp only [Pool.add_cert]
  repeat' split
  all_goals first
    | exact ⟨Nat.le_refl _, Nat.le_refl _⟩
    | exact cursors_from_avc _ _ _ _ rfl rfl

theorem add_block_cursors_le (p : Pool) (slot : Nat) (bi : BlockInfo) :
    p.highest_finalized_slot ≤ (Pool.add_block p slot bi).highest_finalized_slot
    ∧ p.highest_notarized_fallback_slot ≤
      (Pool.add_block p slot bi).highest_notarized_fallback_slot := by
  simp only [Pool.add_block]
  repeat' split
  all_goals exact ⟨Nat.le_refl _, Nat.le_refl _⟩

/-- Claim C3: across any sequence of `add_vote`, `add_cert`, `add_block`,
`prune` and `add_valid_cert` calls, `highest_finalized_slot` and
`highest_notarized_fallback_slot` never decrease. -/
theorem c3_monotone_cursors (p : Pool) (ops : List PoolOp) :
    p.highest_finalized_slot ≤ (Pool.apply_ops p ops).highest_finalized_slot
    ∧ p.highest_notarized_fallback_slot ≤
      (Pool.apply_ops p ops).highest_notarized_fallback_slot := by
  induction ops generalizing p with
  | nil => simp [Pool.apply_ops]
  | cons op t ih =>
    have h1 : p.highest_finalized_slot ≤ (Pool.apply_op p op).highest_finalized_slot
        ∧ p.highest_notarized_fallback_slot ≤
          (Pool.apply_op p op).highest_notarized_fallback_slot := by
      cases op with
      | vote v => exact add_vote_cursors_le p v
      | cert c => exact add_cert_cursors_le p c
      | block s bi => exact add_block_cursors_le p s bi
      | prune_op => simp [Pool.apply_op, Pool.prune]
      | valid_cert c => exact avc_cursors_le p c
    have h2 := ih (Pool.apply_op p op)
    exact ⟨le_trans h1.1 h2.1, le_trans h1.2 h2.2⟩

/-! ### Claim C7: durable-store key layout -/

theorem fromDigitsBE_append_single (base : Nat) (ds : List Nat) (d : Nat) :
    fromDigitsBE base (ds ++ [d]) = fromDigitsBE base ds * base + d := by
  simp [fromDigitsBE, List.foldl_append]

theorem fromDigitsBE_toDigitsBE (base k n : Nat) :
    fromDigitsBE base (toDigitsBE base k n) = n % base ^ k := by
  induction k generalizing n with
  | zero => simp [toDigitsBE, fromDigitsBE, Nat.mod_one]
  | succ k ih =>
    rw [toDigitsBE, fromDigitsBE_append_single, ih]
    rw [pow_succ']
    rw [Nat.mod_mul]
    ring

theorem toDigitsBE_length (base k n : Nat) : (toDigitsBE base k n).length = k := by
  induction k generalizing n with
  | zero => simp [toDigitsBE]
  | succ k ih => simp [toDigitsBE, ih]

theorem toDigitsBE_lt (base k n : Nat) (hb : 0 < base) :
    ∀ d ∈ toDigitsBE base k n, d < base := by
  induction k generalizing n with
  | zero => simp [toDigitsBE]
  | succ k ih =>
    intro d hd
    rw [toDigitsBE] at hd
    rcases List.mem_append.mp hd with h | h
    · exact ih _ d h
    · simp at h
      subst h
      exact Nat.mod_lt _ hb

theorem hexCharVal_hexDigitChar : ∀ d, d < 16 → hexCharVal (hexDigitChar d) = d := by decide

theorem hexDigitChar_mem_hex : ∀ d, d < 16 → hexDigitChar d ∈ "0123456789ABCDEF".data := by
  decide

theorem slot_hex16_decodes (slot : Nat) (h : slot < 2 ^ 64) :
    fromDigitsBE 16 ((slot_hex16 slot).map hexCharVal) = slot := by
  have hmap : (slot_hex16 slot).map hexCharVal = toDigitsBE 16 16 slot := by
    unfold slot_hex16
    rw [List.map_map]
    have : ∀ d ∈ toDigitsBE 16 16 slot, (hexCharVal ∘ hexDigitChar) d = d := by
      intro d hd
      exact hexCharVal_hexDigitChar d (toDigitsBE_lt 16 16 slot (by norm_num) d hd)
    calc (toDigitsBE 16 16 slot).map (hexCharVal ∘ hexDigitChar)
        = (toDigitsBE 16 16 slot).map id := List.map_congr_left this
      _ = toDigitsBE 16 16 slot := List.map_id _
  rw [hmap, fromDigitsBE_toDigitsBE]
  have h16 : (16 : Nat) ^ 16 = 2 ^ 64 := by norm_num
  rw [h16]
  exact Nat.mod_eq_of_lt h

theorem avc_db_put (p : Pool) (c : Cert) :
    (Pool.add_valid_cert p c).db_puts = p.db_puts ++ [(cert_db_key c, c)] := by
  cases hck : c.kind <;>
    simp only [Pool.add_valid_cert, hck, Pool.prune, Pool.set_slot_state,
      Pool.ensure_slot_state, Pool.slot_state_get] <;>
    (repeat' split) <;> simp

/-- Claim C7: every certificate persisted during installation is written
under the key `"cert|" ++ <16 upper-case zero-padded big-endian hex digits
of the slot> ++ "|" ++ <one ASCII digit 0-4 in the order
Notar, NotarFallback, Skip, FastFinal, Final>`, and the value written under
`meta|final_slot` is the 8-byte big-endian encoding of
`highest_finalized_slot` (it decodes back to it). -/
theorem c7_durable_key_layout (p : Pool) (c : Cert)
    (hslot : c.slot < 2 ^ 64) (hhfs : p.highest_finalized_slot < 2 ^ 64) :
    (Pool.add_valid_cert p c).db_puts = p.db_puts ++ [(cert_db_key c, c)]
    ∧ (cert_db_key c).data =
      "cert|".data ++ slot_hex16 c.slot ++ "|".data ++ [hexDigitChar (cert_kind_byte c)]
    ∧ (slot_hex16 c.slot).length = 16
    ∧ (∀ ch ∈ slot_hex16 c.slot, ch ∈ "0123456789ABCDEF".data)
    ∧ fromDigitsBE 16 ((slot_hex16 c.slot).map hexCharVal) = c.slot
    ∧ cert_kind_byte c = spec_cert_kind_digit c.kind
    ∧ hexDigitChar (cert_kind_byte c) ∈ "01234".data
    ∧ (u64_to_be_bytes p.highest_finalized_slot).length = 8
    ∧ (∀ b ∈ u64_to_be_bytes p.highest_finalized_slot, b < 256)
    ∧ u64_from_be_bytes (u64_to_be_bytes p.highest_finalized_slot) =
        p.highest_finalized_slot := by
  refine ⟨avc_db_put p c, rfl, ?_, ?_, slot_hex16_decodes c.slot hslot, ?_, ?_, ?_, ?_, ?_⟩
  · simp [slot_hex16, toDigitsBE_length]
  · intro ch hch
    rcases List.mem_map.mp hch with ⟨d, hd, hdc⟩
    subst hdc
    exact hexDigitChar_mem_hex d (toDigitsBE_lt 16 16 c.slot (by norm_num) d hd)
  · cases hck : c.kind <;> simp [cert_kind_byte, spec_cert_kind_digit, hck]
  · cases hck : c.kind <;> simp [cert_kind_byte, hck] <;> decide
  · simp [u64_to_be_bytes, toDigitsBE_length]
  · intro b hb
    exact toDigitsBE_lt 256 8 p.highest_finalized_slot (by norm_num) b hb
  · rw [u64_from_be_bytes, u64_to_be_bytes, fromDigitsBE_toDigitsBE]
    have h256 : (256 : Nat) ^ 8 = 2 ^ 64 := by norm_num
    rw [h256]
    exact Nat.mod_eq_of_lt hhfs

/-- Claim C7 witness: the key layout at a concrete certificate and pool
(slot 4500 = 0x1194, `FastFinal`, kind digit 3; cursor 2). -/
theorem c7_witness :
    ((4500 : Nat) < 2 ^ 64 ∧ (2 : Nat) < 2 ^ 64)
    ∧ ((Pool.add_valid_cert { Pool.new eleven_equal with highest_finalized_slot := 2 }
          { slot := 4500, kind := CertKind.fastFinal 3, sig_ok := true }).db_puts =
        ({ Pool.new eleven_equal with highest_finalized_slot := 2 } : Pool).db_puts
          ++ [(cert_db_key { slot := 4500, kind := CertKind.fastFinal 3, sig_ok := true },
               { slot := 4500, kind := CertKind.fastFinal 3, sig_ok := true })]
      ∧ (cert_db_key { slot := 4500, kind := CertKind.fastFinal 3, sig_ok := true }).data =
          "cert|".data
            ++ slot_hex16 (4500 : Nat) ++ "|".data
            ++ [hexDigitChar (cert_kind_byte
                  { slot := 4500, kind := CertKind.fastFinal 3, sig_ok := true })]
      ∧ (slot_hex16 (4500 : Nat)).length = 16
      ∧ (∀ ch ∈ slot_hex16 (4500 : Nat), ch ∈ "0123456789ABCDEF".data)
      ∧ fromDigitsBE 16 ((slot_hex16 (4500 : Nat)).map hexCharVal) = 4500
      ∧ cert_kind_byte { slot := 4500, kind := CertKind.fastFinal 3, sig_ok := true } =
          spec_cert_kind_digit (CertKind.fastFinal 3)
      ∧ hexDigitChar (cert_kind_byte
            { slot := 4500, kind := CertKind.fastFinal 3, sig_ok := true }) ∈ "01234".data
      ∧ (u64_to_be_bytes (2 : Nat)).length = 8
      ∧ (∀ b ∈ u64_to_be_bytes (2 : Nat), b < 256)
      ∧ u64_from_be_bytes (u64_to_be_bytes (2 : Nat)) = 2) :=
  ⟨⟨by norm_num, by norm_num⟩,
    c7_durable_key_layout { Pool.new eleven_equal with highest_finalized_slot := 2 }
      { slot := 4500, kind := CertKind.fastFinal 3, sig_ok := true }
      (by norm_num) (by norm_num)⟩

/-! ### Claim C6: standstill recovery -/

theorem mem_get_certs_from (l : List (Nat × SlotState)) (slot : Nat) (c : Cert) :
    c ∈ get_certs_from l slot ↔ ∃ s ss, (s, ss) ∈ l ∧ slot ≤ s ∧ c ∈ state_certs ss := by
  induction l with
  | nil => simp [get_certs_from]
  | cons e r ih =>
    simp only [get_certs_from, List.mem_append]
    constructor
    · intro h
      rcases h with h | h
      · by_cases hs : slot ≤ e.1
        · rw [if_pos hs] at h
          exact ⟨e.1, e.2, List.mem_cons_self _ _, hs, h⟩
        · rw [if_neg hs] at h
          simp at h
      · rcases ih.mp h with ⟨s, ss, hmem, hle, hc⟩
        exact ⟨s, ss, List.mem_cons_of_mem _ hmem, hle, hc⟩
    · rintro ⟨s, ss, hmem, hle, hc⟩
      rcases List.mem_cons.mp hmem with heq | hmem'
      · left
        rw [← heq]
        rw [if_pos hle]
        exact hc
      · right
        exact ih.mpr ⟨s, ss, hmem', hle, hc⟩

theorem mem_state_own_votes (own : Nat) (ss : SlotState) (v : Vote) :
    v ∈ state_own_votes own ss ↔ v.signer = own ∧ v ∈ state_votes ss := by
  simp [state_own_votes, List.mem_filter, and_comm]

theorem mem_get_own_votes_from (own : Nat) (l : List (Nat × SlotState)) (slot : Nat) (v : Vote) :
    v ∈ get_own_votes_from own l slot ↔
      ∃ s ss, (s, ss) ∈ l ∧ slot ≤ s ∧ v.signer = own ∧ v ∈ state_votes ss := by
  induction l with
  | nil => simp [get_own_votes_from]
  | cons e r ih =>
    simp only [get_own_votes_from, List.mem_append]
    constructor
    · intro h
      rcases h with h | h
      · by_cases hs : slot ≤ e.1
        · rw [if_pos hs] at h
          rcases (mem_state_own_votes own e.2 v).mp h with ⟨hsig, hv⟩
          exact ⟨e.1, e.2, List.mem_cons_self _ _, hs, hsig, hv⟩
        · rw [if_neg hs] at h
          simp at h
      · rcases ih.mp h with ⟨s, ss, hmem, hle, hsig, hv⟩
        exact ⟨s, ss, List.mem_cons_of_mem _ hmem, hle, hsig, hv⟩
    · rintro ⟨s, ss, hmem, hle, hsig, hv⟩
      rcases List.mem_cons.mp hmem with heq | hmem'
      · left
        rw [← heq]
        rw [if_pos hle]
        exact (mem_state_own_votes own ss v).mpr ⟨hsig, hv⟩
      · right
        exact ih.mpr ⟨s, ss, hmem', hle, hsig, hv⟩

/-- Claim C6: `recover_from_standstill` emits exactly one event,
`Standstill(highest_finalized_slot + 1, certs, votes)`, where `certs` holds
exactly the certificates of slot states at slots `>= highest_finalized_slot`
and `votes` exactly this validator's own votes at slots
`>= highest_finalized_slot + 1`. -/
theorem c6_standstill_recovery (p : Pool) :
    Pool.recover_from_standstill p =
      [VotorEvent.standstill (p.highest_finalized_slot + 1)
        (p.get_certs p.highest_finalized_slot)
        (p.get_own_votes (p.highest_finalized_slot + 1))]
    ∧ (∀ c, c ∈ p.get_certs p.highest_finalized_slot ↔
        ∃ s ss, (s, ss) ∈ p.slot_states ∧ p.highest_finalized_slot ≤ s ∧ c ∈ state_certs ss)
    ∧ (∀ v, v ∈ p.get_own_votes (p.highest_finalized_slot + 1) ↔
        ∃ s ss, (s, ss) ∈ p.slot_states ∧ p.highest_finalized_slot + 1 ≤ s
          ∧ v.signer = p.epoch_info.own_id ∧ v ∈ state_votes ss) :=
  ⟨rfl, fun c => mem_get_certs_from p.slot_states p.highest_finalized_slot c,
    fun v => mem_get_own_votes_from p.epoch_info.own_id p.slot_states
      (p.highest_finalized_slot + 1) v⟩

/-! ### Claim C8: add_block dichotomy -/

theorem slot_state_get_ensure_eq (p : Pool) (slot : Nat) :
    (p.ensure_slot_state slot).slot_state_get slot = p.slot_state_get slot := by
  simp [Pool.ensure_slot_state, Pool.slot_state_get, lookupKV_insertKV_self]

/-- Claim C8 counterexample: with the parent `(0, 5)` notar-certified but the
child's notification producing no event, the claim says no entry is
recorded in the pending map; the code records
`((0,5), (1,7))` in `s2n_waiting_parent_cert` anyway. -/
theorem c8_counterexample :
    add_block_parent_certified c8_pool c8_block_info = true
    ∧ SlotState.notify_parent_certified 1 (c8_pool.slot_state_get 1) c8_block_info.hash = none
    ∧ (Pool.add_block c8_pool 1 c8_block_info).s2n_waiting_parent_cert = [((0, 5), (1, 7))] := by
  decide

/-- Claim C8 (amended): `add_block` records the pending mapping unless the
parent is at least notar-fallback certified AND the child's
`notify_parent_certified` yields an event; exactly in that case the event
is emitted and nothing is recorded. -/
theorem c8_add_block_dichotomy (p : Pool) (slot : Nat) (bi : BlockInfo) :
    (Pool.add_block p slot bi).s2n_waiting_parent_cert =
      (if add_block_parent_certified p bi = true
          ∧ (SlotState.notify_parent_certified slot (p.slot_state_get slot) bi.hash).isSome = true
        then p.s2n_waiting_parent_cert
        else insertKV p.s2n_waiting_parent_cert (bi.parent_slot, bi.parent_hash) (slot, bi.hash))
    ∧ (Pool.add_block p slot bi).votor_events =
      (if add_block_parent_certified p bi = true
          ∧ (SlotState.notify_parent_certified slot (p.slot_state_get slot) bi.hash).isSome = true
        then p.votor_events
          ++ (SlotState.notify_parent_certified slot (p.slot_state_get slot) bi.hash).toList
        else p.votor_events) := by
  cases hl : lookupKV p.slot_states bi.parent_slot with
  | none =>
    simp [Pool.add_block, add_block_parent_certified, hl, Pool.ensure_slot_state]
  | some ps =>
    cases hnf : ps.is_notar_fallback bi.parent_hash with
    | false =>
      simp [Pool.add_block, add_block_parent_certified, hl, hnf, Pool.ensure_slot_state]
    | true =>
      cases hno : SlotState.notify_parent_certified slot (p.slot_state_get slot) bi.hash with
      | none =>
        simp only [Pool.slot_state_get] at hno
        simp [Pool.add_block, add_block_parent_certified, hl, hnf, Pool.ensure_slot_state,
          Pool.slot_state_get, lookupKV_insertKV_self, hno]
      | some ev =>
        simp only [Pool.slot_state_get] at hno
        simp [Pool.add_block, add_block_parent_certified, hl, hnf, Pool.ensure_slot_state,
          Pool.slot_state_get, lookupKV_insertKV_self, hno]

/-! ### Claim C9: errors at the pool boundary -/

theorem check_slashable_new (slot : Nat) (v : Vote) :
    SlotState.check_slashable_offence slot SlotState.new v = none := by
  cases hk : v.kind <;>
    simp [SlotState.check_slashable_offence, check_slashable_votes, hk, has_vote_by,
      SlotState.new]

theorem should_ignore_new (v : Vote) :
    SlotState.should_ignore_vote SlotState.new v = false := by
  cases hk : v.kind <;>
    simp [SlotState.should_ignore_vote, should_ignore_votes, hk, SlotState.new]

theorem slot_state_get_of_none (p : Pool) (slot : Nat)
    (h : lookupKV p.slot_states slot = none) : p.slot_state_get slot = SlotState.new := by
  simp [Pool.slot_state_get, h]

theorem add_vote_fresh_not_dup_slash (p : Pool) (v : Vote)
    (hl : lookupKV p.slot_states v.slot = none) :
    (Pool.add_vote p v).1 = none
    ∨ (Pool.add_vote p v).1 = some PoolError.slotOutOfBounds
    ∨ (Pool.add_vote p v).1 = some PoolError.invalidSignature := by
  simp only [Pool.add_vote]
  by_cases hb : slot_out_of_bounds p.highest_finalized_slot v.slot
  · simp [hb]
  · cases hbh : v.block_hash <;>
      simp only [hb, hbh, Bool.false_eq_true, if_false] <;>
      by_cases hs : v.sig_ok = false <;>
      simp only [hs, if_true, if_false] <;>
      try simp
    all_goals
      rw [slot_state_get_ensure_eq]
      simp only [Pool.slot_state_get]
      simp only [hl, Option.getD_none]
      rw [check_slashable_new, should_ignore_new]
      simp

theorem add_cert_fresh_not_dup (p : Pool) (c : Cert)
    (hl : lookupKV p.slot_states c.slot = none) :
    (Pool.add_cert p c).1 = none
    ∨ (Pool.add_cert p c).1 = some PoolError.slotOutOfBounds
    ∨ (Pool.add_cert p c).1 = some PoolError.invalidSignature := by
  simp only [Pool.add_cert]
  by_cases hb : slot_out_of_bounds p.highest_finalized_slot c.slot
  · simp [hb]
  · by_cases hs : c.sig_ok = false <;> simp only [hb, hs, Bool.false_eq_true, if_false, if_true]
    · simp
    · rw [slot_state_get_ensure_eq]
      simp only [Pool.slot_state_get]
      simp only [hl, Option.getD_none]
      cases hck : c.kind <;> simp [SlotState.new, hck]

/-- Claim C9 counterexample: no `add_vote` returning `Slashable` or
`Duplicate` and no `add_cert` returning `Duplicate` can find its slot
without a `slot_states` entry (those errors require previously recorded
votes or certificates for the slot), so the claimed fresh-entry creation by
such error returns never happens. -/
theorem c9_counterexample : ¬ c9_entry_creation_claim := by
  rintro (⟨p, v, herr, hl, _⟩ | ⟨p, c, herr, hl, _⟩)
  · rcases add_vote_fresh_not_dup_slash p v hl with hr | hr | hr <;>
      rw [hr] at herr <;>
      rcases herr with h' | ⟨o, h'⟩ <;> simp at h'
  · rcases add_cert_fresh_not_dup p c hl with hr | hr | hr <;> rw [hr] at herr <;> simp at herr

theorem add_vote_states_or_ok (p : Pool) (v : Vote) (ss0 : SlotState)
    (hlk : lookupKV p.slot_states v.slot = some ss0) :
    (Pool.add_vote p v).1 = none ∨ (Pool.add_vote p v).2.slot_states = p.slot_states := by
  have hins : insertKV p.slot_states v.slot
      ((lookupKV p.slot_states v.slot).getD SlotState.new) = p.slot_states := by
    rw [hlk]
    exact insertKV_lookup_self _ _ _ hlk
  simp only [Pool.add_vote]
  repeat' split
  all_goals first
    | (left; rfl)
    | (right; simp [Pool.ensure_slot_state, Pool.slot_state_get, hins])

theorem add_cert_states_or_ok (p : Pool) (c : Cert) (ss0 : SlotState)
    (hlk : lookupKV p.slot_states c.slot = some ss0) :
    (Pool.add_cert p c).1 = none ∨ (Pool.add_cert p c).2.slot_states = p.slot_states := by
  have hins : insertKV p.slot_states c.slot
      ((lookupKV p.slot_states c.slot).getD SlotState.new) = p.slot_states := by
    rw [hlk]
    exact insertKV_lookup_self _ _ _ hlk
  simp only [Pool.add_cert]
  repeat' split
  all_goals first
    | (left; rfl)
    | (right; simp [Pool.ensure_slot_state, Pool.slot_state_get, hins])

theorem add_vote_dup_slash_states (p : Pool) (v : Vote)
    (herr : (Pool.add_vote p v).1 = some PoolError.duplicate
      ∨ ∃ o, (Pool.add_vote p v).1 = some (PoolError.slashable o)) :
    (lookupKV p.slot_states v.slot).isSome = true
    ∧ (Pool.add_vote p v).2.slot_states = p.slot_states := by
  cases hlk : lookupKV p.slot_states v.slot with
  | none =>
    rcases add_vote_fresh_not_dup_slash p v hlk with hr | hr | hr <;>
      rw [hr] at herr <;>
      rcases herr with h' | ⟨o, h'⟩ <;> simp at h'
  | some ss0 =>
    refine ⟨rfl, ?_⟩
    rcases add_vote_states_or_ok p v ss0 hlk with hok | hst
    · rw [hok] at herr
      rcases herr with h' | ⟨o, h'⟩ <;> simp at h'
    · exact hst

theorem add_cert_dup_states (p : Pool) (c : Cert)
    (herr : (Pool.add_cert p c).1 = some PoolError.duplicate) :
    (lookupKV p.slot_states c.slot).isSome = true
    ∧ (Pool.add_cert p c).2.slot_states = p.slot_states := by
  cases hlk : lookupKV p.slot_states c.slot with
  | none =>
    rcases add_cert_fresh_not_dup p c hlk with hr | hr | hr <;> rw [hr] at herr <;> simp at herr
  | some ss0 =>
    refine ⟨rfl, ?_⟩
    rcases add_cert_states_or_ok p c ss0 hlk with hok | hst
    · rw [hok] at herr
      simp at herr
    · exact hst

/-- Claim C9 (amended): an `add_vote` returning `Slashable` or `Duplicate`
and an `add_cert` returning `Duplicate` always find an existing
`slot_states` entry and leave `slot_states` unchanged (no fresh entry is
ever created by these error returns); the non-atomic error behaviour that
does exist is the repair channel: an in-bounds vote carrying a block hash
sends `(slot, hash)` on the repair channel before signature verification,
so a vote rejected with `InvalidSignature` has already produced the repair
side effect. -/
theorem c9_error_atomicity (p : Pool) (v : Vote) (c : Cert) (h : Nat) :
    (((Pool.add_vote p v).1 = some PoolError.duplicate
        ∨ (∃ o, (Pool.add_vote p v).1 = some (PoolError.slashable o))) →
      (lookupKV p.slot_states v.slot).isSome = true
      ∧ (Pool.add_vote p v).2.slot_states = p.slot_states)
    ∧ ((Pool.add_cert p c).1 = some PoolError.duplicate →
      (lookupKV p.slot_states c.slot).isSome = true
      ∧ (Pool.add_cert p c).2.slot_states = p.slot_states)
    ∧ (v.block_hash = some h →
      slot_out_of_bounds p.highest_finalized_slot v.slot = false →
      v.sig_ok = false →
      (Pool.add_vote p v).1 = some PoolError.invalidSignature
      ∧ (Pool.add_vote p v).2.repair_out = p.repair_out ++ [(v.slot, h)]) := by
  refine ⟨fun herr => add_vote_dup_slash_states p v herr,
    fun herr => add_cert_dup_states p c herr, fun hbh hb hs => ?_⟩
  simp [Pool.add_vote, hb, hbh, hs]

/-! ### Claim C5: slashing detection -/

theorem add_cert_votes_eq (ss : SlotState) (c : Cert) :
    (SlotState.add_cert ss c).votes = ss.votes := by
  cases hk : c.kind <;> (simp only [SlotState.add_cert, hk]; (try split)) <;> rfl

theorem add_vote_fst_record (e : EpochInfo) (slot : Nat) (ss : SlotState) (v : Vote) :
    (SlotState.add_vote e slot ss v).1 = ss.record_vote v := by
  cases hk : v.kind <;> simp [SlotState.add_vote, hk]

theorem add_vote_certs_slot (e : EpochInfo) (slot : Nat) (ss : SlotState) (v : Vote) :
    ∀ c ∈ (SlotState.add_vote e slot ss v).2.1, c.slot = slot := by
  cases hk : v.kind <;>
    simp only [SlotState.add_vote, hk] <;>
    intro c hc <;>
    (repeat' split at hc) <;>
    simp only [List.mem_append, List.mem_singleton, List.not_mem_nil, or_false,
      false_or] at hc <;>
    (try casesm* _ ∨ _) <;>
    subst_vars <;>
    rfl

theorem avc_at_slot (q : Pool) (c : Cert)
    (hw : q.s2n_waiting_parent_cert = [])
    (hh : q.highest_finalized_slot ≤ c.slot) :
    lookupKV (Pool.add_valid_cert q c).slot_states c.slot =
      some (SlotState.add_cert (q.slot_state_get c.slot) c)
    ∧ (Pool.add_valid_cert q c).s2n_waiting_parent_cert = []
    ∧ ((Pool.add_valid_cert q c).highest_finalized_slot = q.highest_finalized_slot
        ∨ (Pool.add_valid_cert q c).highest_finalized_slot = c.slot)
    ∧ (Pool.add_valid_cert q c).epoch_info = q.epoch_info := by
  cases hk : c.kind with
  | notar bh =>
    simp [Pool.add_valid_cert, hk, hw, lookupKV, Pool.set_slot_state, lookupKV_insertKV_self,
      Pool.slot_state_get]
  | notarFallback bh =>
    simp [Pool.add_valid_cert, hk, hw, lookupKV, Pool.set_slot_state, lookupKV_insertKV_self,
      Pool.slot_state_get]
  | skip =>
    simp [Pool.add_valid_cert, hk, hw, Pool.set_slot_state, lookupKV_insertKV_self,
      Pool.slot_state_get]
  | fastFinal bh =>
    have hmax : max c.slot q.highest_finalized_slot = c.slot := Nat.max_eq_left hh
    simp only [Pool.add_valid_cert, hk, Pool.prune, Pool.set_slot_state]
    refine ⟨?_, hw, by simp [hmax], by simp⟩
    rw [show ({ q with db_puts := q.db_puts ++ [(cert_db_key c, c)] } : Pool).slot_state_get
        c.slot = q.slot_state_get c.slot from rfl]
    have h := lookupKV_filter (fun k => decide (max c.slot q.highest_finalized_slot ≤ k))
      (insertKV q.slot_states c.slot (SlotState.add_cert (q.slot_state_get c.slot) c)) c.slot
    simp only [hmax] at h ⊢
    simpa [lookupKV_insertKV_self] using h
  | final =>
    have hmax : max c.slot q.highest_finalized_slot = c.slot := Nat.max_eq_left hh
    simp only [Pool.add_valid_cert, hk, Pool.prune, Pool.set_slot_state]
    refine ⟨?_, hw, by simp [hmax], by simp⟩
    rw [show ({ q with db_puts := q.db_puts ++ [(cert_db_key c, c)] } : Pool).slot_state_get
        c.slot = q.slot_state_get c.slot from rfl]
    have h := lookupKV_filter (fun k => decide (max c.slot q.highest_finalized_slot ≤ k))
      (insertKV q.slot_states c.slot (SlotState.add_cert (q.slot_state_get c.slot) c)) c.slot
    simp only [hmax] at h ⊢
    simpa [lookupKV_insertKV_self] using h

theorem foldl_avc_at_slot (L : List Cert) (q : Pool) (s0 : Nat) (ss : SlotState)
    (hslots : ∀ c ∈ L, c.slot = s0)
    (hw : q.s2n_waiting_parent_cert = [])
    (hh : q.highest_finalized_slot ≤ s0)
    (hst : lookupKV q.slot_states s0 = some ss) :
    ∃ ssf, lookupKV (L.foldl Pool.add_valid_cert q).slot_states s0 = some ssf
      ∧ ssf.votes = ss.votes
      ∧ (L.foldl Pool.add_valid_cert q).s2n_waiting_parent_cert = []
      ∧ ((L.foldl Pool.add_valid_cert q).highest_finalized_slot = q.highest_finalized_slot
          ∨ (L.foldl Pool.add_valid_cert q).highest_finalized_slot = s0)
      ∧ (L.foldl Pool.add_valid_cert q).epoch_info = q.epoch_info := by
  induction L generalizing q ss with
  | nil => exact ⟨ss, hst, rfl, hw, Or.inl rfl, rfl⟩
  | cons c t ih =>
    have hc : c.slot = s0 := hslots c (List.mem_cons_self c t)
    obtain ⟨h1, h2, h3, h4⟩ := avc_at_slot q c hw (by rw [hc]; exact hh)
    have hh' : (Pool.add_valid_cert q c).highest_finalized_slot ≤ s0 := by
      rcases h3 with h3 | h3
      · rw [h3]; exact hh
      · rw [h3, hc]
    have hst' : lookupKV (Pool.add_valid_cert q c).slot_states s0 =
        some (SlotState.add_cert (q.slot_state_get s0) c) := by
      rw [← hc]
      rw [h1, hc]
    obtain ⟨ssf, hl, hv, hw', hf, he⟩ := ih (Pool.add_valid_cert q c)
      (SlotState.add_cert (q.slot_state_get s0) c)
      (fun c' hc' => hslots c' (List.mem_cons_of_mem _ hc')) h2 hh' hst'
    refine ⟨ssf, by simpa [List.foldl] using hl, ?_, by simpa [List.foldl] using hw', ?_,
      by simpa [List.foldl, h4] using he⟩
    · rw [hv, add_cert_votes_eq]
      simp [Pool.slot_state_get, hst]
    · rcases hf with hf | hf
      · rcases h3 with h3 | h3
        · left
          simpa [List.foldl, h3] using hf
        · right
          rw [← hc]
          simpa [List.foldl, h3] using hf
      · right
        simpa [List.foldl] using hf

theorem ensure_epoch_info (p : Pool) (slot : Nat) :
    (p.ensure_slot_state slot).epoch_info = p.epoch_info := rfl

theorem ensure_s2n (p : Pool) (slot : Nat) :
    (p.ensure_slot_state slot).s2n_waiting_parent_cert = p.s2n_waiting_parent_cert := rfl

theorem ensure_hfs (p : Pool) (slot : Nat) :
    (p.ensure_slot_state slot).highest_finalized_slot = p.highest_finalized_slot := rfl

theorem set_state_epoch_info (p : Pool) (slot : Nat) (ss : SlotState) :
    (Pool.set_slot_state p slot ss).epoch_info = p.epoch_info := rfl

theorem set_state_s2n (p : Pool) (slot : Nat) (ss : SlotState) :
    (Pool.set_slot_state p slot ss).s2n_waiting_parent_cert = p.s2n_waiting_parent_cert := rfl

theorem set_state_hfs (p : Pool) (slot : Nat) (ss : SlotState) :
    (Pool.set_slot_state p slot ss).highest_finalized_slot = p.highest_finalized_slot := rfl

theorem set_state_slot_states (p : Pool) (slot : Nat) (ss : SlotState) :
    (Pool.set_slot_state p slot ss).slot_states = insertKV p.slot_states slot ss := rfl

theorem repair_slot_state_get (p : Pool) (x : Nat × Nat) (slot : Nat) :
    ({ p with repair_out := p.repair_out ++ [x] } : Pool).slot_state_get slot =
      p.slot_state_get slot := rfl

theorem add_vote_admitted (p : Pool) (v : Vote)
    (hb : slot_out_of_bounds p.highest_finalized_slot v.slot = false)
    (hs : v.sig_ok = true)
    (hchk : SlotState.check_slashable_offence v.slot (p.slot_state_get v.slot) v = none)
    (hig : SlotState.should_ignore_vote (p.slot_state_get v.slot) v = false)
    (hw : p.s2n_waiting_parent_cert = []) :
    (Pool.add_vote p v).1 = none
    ∧ (∃ ss1, lookupKV (Pool.add_vote p v).2.slot_states v.slot = some ss1
        ∧ ss1.votes = ((p.slot_state_get v.slot).record_vote v).votes)
    ∧ ((Pool.add_vote p v).2.highest_finalized_slot = p.highest_finalized_slot
        ∨ (Pool.add_vote p v).2.highest_finalized_slot = v.slot)
    ∧ (Pool.add_vote p v).2.s2n_waiting_parent_cert = []
    ∧ (Pool.add_vote p v).2.epoch_info = p.epoch_info := by
  have hh : p.highest_finalized_slot ≤ v.slot := by
    simp only [slot_out_of_bounds, Bool.or_eq_false_iff, decide_eq_false_iff_not] at hb
    omega
  have hfold := fun (pr : Pool) (hpr : pr = p ∨ ∃ x, pr =
      { p with repair_out := p.repair_out ++ [x] }) =>
    foldl_avc_at_slot
      (SlotState.add_vote (pr.ensure_slot_state v.slot).epoch_info v.slot
        ((pr.ensure_slot_state v.slot).slot_state_get v.slot) v).2.1
      (Pool.set_slot_state (pr.ensure_slot_state v.slot) v.slot
        (SlotState.add_vote (pr.ensure_slot_state v.slot).epoch_info v.slot
          ((pr.ensure_slot_state v.slot).slot_state_get v.slot) v).1)
      v.slot
      (SlotState.add_vote (pr.ensure_slot_state v.slot).epoch_info v.slot
        ((pr.ensure_slot_state v.slot).slot_state_get v.slot) v).1
      (add_vote_certs_slot _ _ _ _)
      (by rcases hpr with rfl | ⟨x, rfl⟩ <;> simpa [Pool.set_slot_state] using hw)
      (by rcases hpr with rfl | ⟨x, rfl⟩ <;> simpa [Pool.set_slot_state] using hh)
      (by simp [Pool.set_slot_state, lookupKV_insertKV_self])
  cases hbh : v.block_hash with
  | none =>
    obtain ⟨ssf, hl, hv, hw', hf, he⟩ := hfold p (Or.inl rfl)
    simp only [Pool.add_vote, hbh, hb, Bool.false_eq_true, if_false, hs, if_true, if_false,
      Bool.true_eq_false, slot_state_get_ensure_eq, hchk, hig]
    refine ⟨trivial, ⟨ssf, ?_, ?_⟩, ?_, ?_, ?_⟩
    · simpa [slot_state_get_ensure_eq] using hl
    · rw [hv]
      rw [slot_state_get_ensure_eq]
      rw [add_vote_fst_record]
    · rcases hf with hf | hf
      · left
        simpa [slot_state_get_ensure_eq, Pool.set_slot_state] using hf
      · right
        simpa [slot_state_get_ensure_eq] using hf
    · simpa [slot_state_get_ensure_eq] using hw'
    · simpa [slot_state_get_ensure_eq, Pool.set_slot_state] using he
  | some x =>
    obtain ⟨ssf, hl, hv, hw', hf, he⟩ :=
      hfold { p with repair_out := p.repair_out ++ [(v.slot, x)] } (Or.inr ⟨(v.slot, x), rfl⟩)
    simp only [Pool.add_vote, hbh, hb, Bool.false_eq_true, if_false, hs, if_true, if_false,
      Bool.true_eq_false, slot_state_get_ensure_eq, repair_slot_state_get, hchk, hig]
    refine ⟨trivial, ⟨ssf, ?_, ?_⟩, ?_, ?_, ?_⟩
    · simpa [slot_state_get_ensure_eq, repair_slot_state_get] using hl
    · rw [hv]
      rw [slot_state_get_ensure_eq, repair_slot_state_get]
      rw [add_vote_fst_record]
    · rcases hf with hf | hf
      · left
        simpa [slot_state_get_ensure_eq, repair_slot_state_get, Pool.set_slot_state] using hf
      · right
        simpa [slot_state_get_ensure_eq, repair_slot_state_get] using hf
    · simpa [slot_state_get_ensure_eq, repair_slot_state_get] using hw'
    · simpa [slot_state_get_ensure_eq, repair_slot_state_get, Pool.set_slot_state] using he

theorem add_vote_slashable_result (p1 : Pool) (v2 : Vote) (off : SlashableOffence)
    (ss1 : SlotState)
    (hb1 : slot_out_of_bounds p1.highest_finalized_slot v2.slot = false)
    (hs2 : v2.sig_ok = true)
    (hlk1 : lookupKV p1.slot_states v2.slot = some ss1)
    (hchk2 : SlotState.check_slashable_offence v2.slot (p1.slot_state_get v2.slot) v2 =
      some off) :
    (Pool.add_vote p1 v2).1 = some (PoolError.slashable off)
    ∧ (Pool.add_vote p1 v2).2.slot_states = p1.slot_states := by
  have hins : insertKV p1.slot_states v2.slot
      ((lookupKV p1.slot_states v2.slot).getD SlotState.new) = p1.slot_states := by
    rw [hlk1]
    exact insertKV_lookup_self _ _ _ hlk1
  cases hbh2 : v2.block_hash with
  | none =>
    simp only [Pool.add_vote, hbh2, hb1, Bool.false_eq_true, if_false, hs2, Bool.true_eq_false,
      slot_state_get_ensure_eq, hchk2]
    exact ⟨trivial, by simp [Pool.ensure_slot_state, Pool.slot_state_get, hins]⟩
  | some x =>
    simp only [Pool.add_vote, hbh2, hb1, Bool.false_eq_true, if_false, hs2, Bool.true_eq_false,
      slot_state_get_ensure_eq, repair_slot_state_get, hchk2]
    exact ⟨trivial, by simp [Pool.ensure_slot_state, Pool.slot_state_get, hins]⟩

theorem second_vote_slashable (e : EpochInfo) (v1 v2 : Vote) (off : SlashableOffence)
    (hslot : v2.slot = v1.slot) (hs1 : v1.sig_ok = true) (hs2 : v2.sig_ok = true)
    (hb : v1.slot ≠ 2 * SLOTS_PER_EPOCH)
    (hoff : check_slashable_votes v2.slot (SlotState.record_vote SlotState.new v1).votes v2 =
      some off) :
    slashing_pair_detected e v1 v2 off := by
  have hb0 : slot_out_of_bounds (Pool.new e).highest_finalized_slot v1.slot = false := by
    simp [slot_out_of_bounds, Pool.new, hb]
  have hnew : (Pool.new e).slot_state_get v1.slot = SlotState.new := rfl
  have hchk0 : SlotState.check_slashable_offence v1.slot
      ((Pool.new e).slot_state_get v1.slot) v1 = none := by
    rw [hnew]
    exact check_slashable_new _ _
  have hig0 : SlotState.should_ignore_vote ((Pool.new e).slot_state_get v1.slot) v1 = false := by
    rw [hnew]
    exact should_ignore_new _
  obtain ⟨hok, ⟨ss1, hl1, hv1⟩, hf1, hw1, he1⟩ :=
    add_vote_admitted (Pool.new e) v1 hb0 hs1 hchk0 hig0 rfl
  refine ⟨hok, ?_⟩
  have hlk1 : lookupKV (Pool.add_vote (Pool.new e) v1).2.slot_states v2.slot = some ss1 := by
    rw [hslot]
    exact hl1
  have hget1 : (Pool.add_vote (Pool.new e) v1).2.slot_state_get v2.slot = ss1 := by
    simp [Pool.slot_state_get, hlk1]
  have hchk2 : SlotState.check_slashable_offence v2.slot
      ((Pool.add_vote (Pool.new e) v1).2.slot_state_get v2.slot) v2 = some off := by
    rw [hget1]
    show check_slashable_votes v2.slot ss1.votes v2 = some off
    rw [hv1, hnew]
    exact hoff
  have hb1 : slot_out_of_bounds
      (Pool.add_vote (Pool.new e) v1).2.highest_finalized_slot v2.slot = false := by
    have hb' : v1.slot ≠ 9000 := by simpa [SLOTS_PER_EPOCH] using hb
    simp only [slot_out_of_bounds, Bool.or_eq_false_iff, decide_eq_false_iff_not, hslot,
      SLOTS_PER_EPOCH]
    rcases hf1 with hf | hf
    · rw [hf]
      have h0 : (Pool.new e).highest_finalized_slot = 0 := rfl
      rw [h0]
      omega
    · rw [hf]
      omega
  exact add_vote_slashable_result _ v2 off ss1 hb1 hs2 hlk1 hchk2

/-- Claim C5: for every conflicting pair of §4.1 (in either order), the
second vote from the same validator is rejected with the matching
`Slashable` offence and leaves `slot_states` — hence every vote record and
tally — unchanged.  (Modelled from the spec: `slot_state.rs` is not in the
sources.) -/
theorem c5_slashing_detection (e : EpochInfo) (slot i h1 h2 : Nat)
    (hb : slot ≠ 2 * SLOTS_PER_EPOCH) (hne : h1 ≠ h2) :
    slashing_pair_detected e (notar_vote slot h1 i) (notar_vote slot h2 i)
      (SlashableOffence.notarDifferentHash i slot)
    ∧ slashing_pair_detected e (skip_vote slot i) (notar_vote slot h1 i)
      (SlashableOffence.skipAndNotarize i slot)
    ∧ slashing_pair_detected e (notar_vote slot h1 i) (skip_vote slot i)
      (SlashableOffence.skipAndNotarize i slot)
    ∧ slashing_pair_detected e (skip_vote slot i) (final_vote slot i)
      (SlashableOffence.skipAndFinalize i slot)
    ∧ slashing_pair_detected e (final_vote slot i) (skip_vote slot i)
      (SlashableOffence.skipAndFinalize i slot)
    ∧ slashing_pair_detected e (skip_fallback_vote slot i) (final_vote slot i)
      (SlashableOffence.skipAndFinalize i slot)
    ∧ slashing_pair_detected e (final_vote slot i) (skip_fallback_vote slot i)
      (SlashableOffence.skipAndFinalize i slot)
    ∧ slashing_pair_detected e (notar_fallback_vote slot h1 i) (final_vote slot i)
      (SlashableOffence.notarFallbackAndFinalize i slot)
    ∧ slashing_pair_detected e (final_vote slot i) (notar_fallback_vote slot h1 i)
      (SlashableOffence.notarFallbackAndFinalize i slot) := by
  refine ⟨?_, ?_, ?_, ?_, ?_, ?_, ?_, ?_, ?_⟩ <;>
    apply second_vote_slashable <;>
    first
      | rfl
      | exact hb
      | simp [notar_vote, notar_fallback_vote, skip_vote, skip_fallback_vote, final_vote,
          check_slashable_votes, SlotState.record_vote, SlotState.new, has_vote_by, hne]

/-- Claim C5 witness: the slashing pairs at 11 equal-stake validators,
slot 5, validator 3, hashes 1 and 2. -/
theorem c5_witness :
    ((5 : Nat) ≠ 2 * SLOTS_PER_EPOCH ∧ (1 : Nat) ≠ 2)
    ∧ (slashing_pair_detected eleven_equal (notar_vote 5 1 3) (notar_vote 5 2 3)
        (SlashableOffence.notarDifferentHash 3 5)
      ∧ slashing_pair_detected eleven_equal (skip_vote 5 3) (notar_vote 5 1 3)
        (SlashableOffence.skipAndNotarize 3 5)
      ∧ slashing_pair_detected eleven_equal (notar_vote 5 1 3) (skip_vote 5 3)
        (SlashableOffence.skipAndNotarize 3 5)
      ∧ slashing_pair_detected eleven_equal (skip_vote 5 3) (final_vote 5 3)
        (SlashableOffence.skipAndFinalize 3 5)
      ∧ slashing_pair_detected eleven_equal (final_vote 5 3) (skip_vote 5 3)
        (SlashableOffence.skipAndFinalize 3 5)
      ∧ slashing_pair_detected eleven_equal (skip_fallback_vote 5 3) (final_vote 5 3)
        (SlashableOffence.skipAndFinalize 3 5)
      ∧ slashing_pair_detected eleven_equal (final_vote 5 3) (skip_fallback_vote 5 3)
        (SlashableOffence.skipAndFinalize 3 5)
      ∧ slashing_pair_detected eleven_equal (notar_fallback_vote 5 1 3) (final_vote 5 3)
        (SlashableOffence.notarFallbackAndFinalize 3 5)
      ∧ slashing_pair_detected eleven_equal (final_vote 5 3) (notar_fallback_vote 5 1 3)
        (SlashableOffence.notarFallbackAndFinalize 3 5)) :=
  ⟨⟨by decide, by decide⟩,
    c5_slashing_detection eleven_equal 5 3 1 2 (by decide) (by decide)⟩

/-! ### Claim C1: threshold correctness -/

theorem sumStakeOver_mono (e : EpochInfo) (f g : Nat → Bool)
    (h : ∀ i, f i = true → g i = true) : sumStakeOver e f ≤ sumStakeOver e g := by
  refine Finset.sum_le_sum (fun i _ => ?_)
  cases hf : f i
  · simp
  · simp [h i hf]

theorem sumStakeOver_congr (e : EpochInfo) (f g : Nat → Bool) (h : ∀ i, f i = g i) :
    sumStakeOver e f = sumStakeOver e g := by
  unfold sumStakeOver
  exact Finset.sum_congr rfl (fun i _ => by rw [h i])

theorem sum_stake_total (e : EpochInfo) :
    Finset.sum (Finset.range e.stakes.length) e.stake = e.total_stake := by
  rcases e with ⟨stakes, own⟩
  simp only [EpochInfo.stake, EpochInfo.total_stake]
  induction stakes with
  | nil => simp
  | cons a t ih =>
    simp [Finset.sum_range_succ', List.getD] at ih ⊢
    omega

theorem sumStakeOver_pair_le (e : EpochInfo) (f g : Nat → Bool)
    (h : ∀ i, ¬(f i = true ∧ g i = true)) :
    sumStakeOver e f + sumStakeOver e g ≤ e.total_stake := by
  rw [sumStakeOver, sumStakeOver, ← Finset.sum_add_distrib]
  calc Finset.sum (Finset.range e.stakes.length)
        (fun i => (if f i then e.stake i else 0) + (if g i then e.stake i else 0))
      ≤ Finset.sum (Finset.range e.stakes.length) e.stake := by
        refine Finset.sum_le_sum (fun i _ => ?_)
        cases hf : f i
        · cases hg : g i <;> simp [hf, hg]
        · cases hg : g i
          · simp [hf, hg]
          · exact (h i ⟨hf, hg⟩).elim
    _ = e.total_stake := sum_stake_total e

theorem record_vote_certs (ss : SlotState) (v : Vote) :
    (ss.record_vote v).certificates = ss.certificates := by
  cases hk : v.kind <;> simp [SlotState.record_vote, hk]

theorem ss_notar_cert_record (ss : SlotState) (v : Vote) (h : Nat) :
    ss_notar_cert (ss.record_vote v) h = ss_notar_cert ss h := by
  unfold ss_notar_cert
  rw [record_vote_certs]

theorem ss_ff_cert_record (ss : SlotState) (v : Vote) (h : Nat) :
    ss_ff_cert (ss.record_vote v) h = ss_ff_cert ss h := by
  unfold ss_ff_cert
  rw [record_vote_certs]

theorem has_notar_vote_record (ss : SlotState) (v : Vote) (i h : Nat) :
    ss_has_notar_vote (ss.record_vote v) i h =
      (ss_has_notar_vote ss i h
        || (decide (v.signer = i) && decide (v.kind = VoteKind.notar h))) := by
  cases hk : v.kind <;>
    simp [ss_has_notar_vote, SlotState.record_vote, hk, List.any_append]

theorem has_skip_vote_record (ss : SlotState) (v : Vote) (i : Nat) :
    ss_has_skip_vote (ss.record_vote v) i =
      (ss_has_skip_vote ss i
        || (decide (v.signer = i)
            && (decide (v.kind = VoteKind.skip) || decide (v.kind = VoteKind.skipFallback)))) := by
  cases hk : v.kind <;>
    simp [ss_has_skip_vote, SlotState.record_vote, hk, List.any_append, Bool.or_assoc,
      Bool.or_comm, Bool.or_left_comm]

theorem has_final_vote_record (ss : SlotState) (v : Vote) (i : Nat) :
    ss_has_final_vote (ss.record_vote v) i =
      (ss_has_final_vote ss i
        || (decide (v.signer = i) && decide (v.kind = VoteKind.final))) := by
  cases hk : v.kind <;>
    simp [ss_has_final_vote, SlotState.record_vote, hk, List.any_append]

theorem notar_stake_def (e : EpochInfo) (ss : SlotState) (h : Nat) :
    SlotState.notar_stake e ss h = sumStakeOver e (fun i => ss_has_notar_vote ss i h) := rfl

theorem skip_stake_def (e : EpochInfo) (ss : SlotState) :
    SlotState.skip_stake e ss = sumStakeOver e (fun i => ss_has_skip_vote ss i) := rfl

theorem final_stake_def (e : EpochInfo) (ss : SlotState) :
    SlotState.final_stake e ss = sumStakeOver e (fun i => ss_has_final_vote ss i) := rfl

theorem notar_stake_record_mono (e : EpochInfo) (ss : SlotState) (v : Vote) (h : Nat) :
    SlotState.notar_stake e ss h ≤ SlotState.notar_stake e (ss.record_vote v) h := by
  rw [notar_stake_def, notar_stake_def]
  refine sumStakeOver_mono e _ _ (fun i hi => ?_)
  rw [has_notar_vote_record]
  simp [hi]

theorem notar_stake_record_of_ne (e : EpochInfo) (ss : SlotState) (v : Vote) (h : Nat)
    (hk : ¬v.kind = VoteKind.notar h) :
    SlotState.notar_stake e (ss.record_vote v) h = SlotState.notar_stake e ss h := by
  rw [notar_stake_def, notar_stake_def]
  refine sumStakeOver_congr e _ _ (fun i => ?_)
  rw [has_notar_vote_record]
  simp [hk]

theorem skip_stake_record_mono (e : EpochInfo) (ss : SlotState) (v : Vote) :
    SlotState.skip_stake e ss ≤ SlotState.skip_stake e (ss.record_vote v) := by
  rw [skip_stake_def, skip_stake_def]
  refine sumStakeOver_mono e _ _ (fun i hi => ?_)
  rw [has_skip_vote_record]
  simp [hi]

theorem skip_stake_record_of_ne (e : EpochInfo) (ss : SlotState) (v : Vote)
    (h1 : ¬v.kind = VoteKind.skip) (h2 : ¬v.kind = VoteKind.skipFallback) :
    SlotState.skip_stake e (ss.record_vote v) = SlotState.skip_stake e ss := by
  rw [skip_stake_def, skip_stake_def]
  refine sumStakeOver_congr e _ _ (fun i => ?_)
  rw [has_skip_vote_record]
  simp [h1, h2]

theorem final_stake_record_mono (e : EpochInfo) (ss : SlotState) (v : Vote) :
    SlotState.final_stake e ss ≤ SlotState.final_stake e (ss.record_vote v) := by
  rw [final_stake_def, final_stake_def]
  refine sumStakeOver_mono e _ _ (fun i hi => ?_)
  rw [has_final_vote_record]
  simp [hi]

theorem final_stake_record_of_ne (e : EpochInfo) (ss : SlotState) (v : Vote)
    (h1 : ¬v.kind = VoteKind.final) :
    SlotState.final_stake e (ss.record_vote v) = SlotState.final_stake e ss := by
  rw [final_stake_def, final_stake_def]
  refine sumStakeOver_congr e _ _ (fun i => ?_)
  rw [has_final_vote_record]
  simp [h1]

theorem notar_stake_add_cert (e : EpochInfo) (ss : SlotState) (c : Cert) (h : Nat) :
    SlotState.notar_stake e (ss.add_cert c) h = SlotState.notar_stake e ss h := by
  rw [notar_stake_def, notar_stake_def]
  refine sumStakeOver_congr e _ _ (fun i => ?_)
  unfold ss_has_notar_vote
  rw [add_cert_votes_eq]

theorem skip_stake_add_cert (e : EpochInfo) (ss : SlotState) (c : Cert) :
    SlotState.skip_stake e (ss.add_cert c) = SlotState.skip_stake e ss := by
  rw [skip_stake_def, skip_stake_def]
  refine sumStakeOver_congr e _ _ (fun i => ?_)
  unfold ss_has_skip_vote
  rw [add_cert_votes_eq]

theorem final_stake_add_cert (e : EpochInfo) (ss : SlotState) (c : Cert) :
    SlotState.final_stake e (ss.add_cert c) = SlotState.final_stake e ss := by
  rw [final_stake_def, final_stake_def]
  refine sumStakeOver_congr e _ _ (fun i => ?_)
  unfold ss_has_final_vote
  rw [add_cert_votes_eq]

theorem has_notar_vote_add_cert (ss : SlotState) (c : Cert) (i h : Nat) :
    ss_has_notar_vote (ss.add_cert c) i h = ss_has_notar_vote ss i h := by
  unfold ss_has_notar_vote
  rw [add_cert_votes_eq]

theorem add_cert_notar_certs (ss : SlotState) (c : Cert) (h0 : Nat)
    (hk : c.kind = CertKind.notar h0) :
    (SlotState.add_cert ss c).certificates = { ss.certificates with notar := some c } := by
  simp [SlotState.add_cert, hk]

theorem add_cert_ff_certs (ss : SlotState) (c : Cert) (h0 : Nat)
    (hk : c.kind = CertKind.fastFinal h0) :
    (SlotState.add_cert ss c).certificates =
      { ss.certificates with fast_finalize := some c } := by
  simp [SlotState.add_cert, hk]

theorem add_cert_skip_certs (ss : SlotState) (c : Cert) (hk : c.kind = CertKind.skip) :
    (SlotState.add_cert ss c).certificates = { ss.certificates with skip := some c } := by
  simp [SlotState.add_cert, hk]

theorem add_cert_final_certs (ss : SlotState) (c : Cert) (hk : c.kind = CertKind.final) :
    (SlotState.add_cert ss c).certificates = { ss.certificates with finalize := some c } := by
  simp [SlotState.add_cert, hk]

theorem add_cert_nf_proj (ss : SlotState) (c : Cert) (h0 : Nat)
    (hk : c.kind = CertKind.notarFallback h0) :
    (SlotState.add_cert ss c).certificates.notar = ss.certificates.notar
    ∧ (SlotState.add_cert ss c).certificates.fast_finalize = ss.certificates.fast_finalize
    ∧ (SlotState.add_cert ss c).certificates.skip = ss.certificates.skip
    ∧ (SlotState.add_cert ss c).certificates.finalize = ss.certificates.finalize := by
  simp only [SlotState.add_cert, hk]
  split <;> simp

theorem slotok_new (e : EpochInfo) : SlotOkState e SlotState.new := by
  have hz : ∀ p : Nat → Bool, (∀ i, p i = false) → sumStakeOver e p = 0 := by
    intro p hp
    unfold sumStakeOver
    simp [hp]
  refine ⟨?_, ?_, ?_, ?_, ?_, ?_, ?_, ?_, ?_, ?_, ?_, ?_, ?_, ?_, ?_⟩ <;>
    simp [ss_notar_cert, ss_ff_cert, SlotState.new, pend_notar, pend_ff, ss_has_notar_vote,
      SlotState.notar_stake, SlotState.skip_stake, SlotState.final_stake, sumStakeOver]

theorem any_ite_singleton {α : Type} (c : Prop) [Decidable c] (x : α) (p : α → Bool) :
    (if c then [x] else []).any p = if c then p x else false := by
  split <;> simp

theorem countP_ite_singleton {α : Type} (c : Prop) [Decidable c] (x : α) (p : α → Bool) :
    (if c then [x] else []).countP p = if c then (if p x then 1 else 0) else 0 := by
  split <;> simp [List.countP_cons]

theorem notar_stake_pair_le (e : EpochInfo) (ss : SlotState) (h1 h2 : Nat) (hne : h1 ≠ h2)
    (hrec : ∀ i g1 g2, ss_has_notar_vote ss i g1 = true → ss_has_notar_vote ss i g2 = true →
      g1 = g2) :
    SlotState.notar_stake e ss h1 + SlotState.notar_stake e ss h2 ≤ e.total_stake := by
  rw [notar_stake_def, notar_stake_def]
  refine sumStakeOver_pair_le e _ _ (fun i hcontra => ?_)
  exact hne (hrec i h1 h2 hcontra.1 hcontra.2)

theorem record_ok_record (slot : Nat) (ss : SlotState) (v : Vote)
    (hchk : check_slashable_votes slot ss.votes v = none)
    (hrec : ∀ i h1 h2, ss_has_notar_vote ss i h1 = true → ss_has_notar_vote ss i h2 = true →
      h1 = h2) :
    ∀ i h1 h2, ss_has_notar_vote (ss.record_vote v) i h1 = true →
      ss_has_notar_vote (ss.record_vote v) i h2 = true → h1 = h2 := by
  intro i h1 h2 ha hb
  rw [has_notar_vote_record] at ha hb
  cases hk : v.kind with
  | notar hb0 =>
    have huniq : ∀ w ∈ ss.votes.notar, w.signer = v.signer → w.kind = VoteKind.notar hb0 := by
      cases hA : ss.votes.notar.any
          (fun w => decide (w.signer = v.signer) && !decide (w.kind = VoteKind.notar hb0)) with
      | true => simp [check_slashable_votes, hk, hA] at hchk
      | false =>
        intro w hw hsig
        rw [List.any_eq_false] at hA
        have hi := hA w hw
        simpa [hsig] using hi
    simp only [Bool.or_eq_true, Bool.and_eq_true, decide_eq_true_eq, hk,
      VoteKind.notar.injEq] at ha hb
    rcases ha with ha | ⟨hs1, hh1⟩
    · rcases hb with hb | ⟨hs2, hh2⟩
      · exact hrec i h1 h2 ha hb
      · rw [ss_has_notar_vote, List.any_eq_true] at ha
        obtain ⟨w, hw, hwp⟩ := ha
        simp only [Bool.and_eq_true, decide_eq_true_eq] at hwp
        have := huniq w hw (by rw [hwp.1, ← hs2])
        rw [hwp.2] at this
        simp only [VoteKind.notar.injEq] at this
        omega
    · rcases hb with hb | ⟨hs2, hh2⟩
      · rw [ss_has_notar_vote, List.any_eq_true] at hb
        obtain ⟨w, hw, hwp⟩ := hb
        simp only [Bool.and_eq_true, decide_eq_true_eq] at hwp
        have := huniq w hw (by rw [hwp.1, ← hs1])
        rw [hwp.2] at this
        simp only [VoteKind.notar.injEq] at this
        omega
      · omega
  | notarFallback h0 =>
    simp only [hk] at ha hb
    simp at ha hb
    exact hrec i h1 h2 ha hb
  | skip =>
    simp only [hk] at ha hb
    simp at ha hb
    exact hrec i h1 h2 ha hb
  | skipFallback =>
    simp only [hk] at ha hb
    simp at ha hb
    exact hrec i h1 h2 ha hb
  | final =>
    simp only [hk] at ha hb
    simp at ha hb
    exact hrec i h1 h2 ha hb

theorem pendok_emit_nf (e : EpochInfo) (slot : Nat) (ss : SlotState) (v : Vote) (hb : Nat)
    (hok : SlotOkState e ss) (hk : v.kind = VoteKind.notarFallback hb) :
    PendOk e (ss.record_vote v)
      (if SlotState.notar_fallback_stake e (ss.record_vote v) hb * 5 > e.total_stake * 2
          ∧ SlotState.has_nf_cert (ss.record_vote v) hb = false
       then [{ slot := slot, kind := CertKind.notarFallback hb, sig_ok := true }] else []) := by
  have hP : PendOk e ss [] := hok
  have hN : ∀ h, ss_notar_cert ss h = true
      ↔ SlotState.notar_stake e ss h * 5 > e.total_stake * 3 := by
    intro h
    simpa [pend_notar] using hP.notar_iff h
  have hF : ∀ h, ss_ff_cert ss h = true
      ↔ SlotState.notar_stake e ss h * 5 > e.total_stake * 4 := by
    intro h
    simpa [pend_ff] using hP.ff_iff h
  have hS : ss.certificates.skip.isSome = true
      ↔ SlotState.skip_stake e ss * 5 > e.total_stake * 3 := by
    simpa using hP.skip_iff
  have hFin : ss.certificates.finalize.isSome = true
      ↔ SlotState.final_stake e ss * 5 > e.total_stake * 3 := by
    simpa using hP.final_iff
  have hcert := record_vote_certs ss v
  have hnst : ∀ h, SlotState.notar_stake e (ss.record_vote v) h = SlotState.notar_stake e ss h :=
    fun h => notar_stake_record_of_ne e ss v h (by simp [hk])
  have hsst : SlotState.skip_stake e (ss.record_vote v) = SlotState.skip_stake e ss :=
    skip_stake_record_of_ne e ss v (by simp [hk]) (by simp [hk])
  have hfst : SlotState.final_stake e (ss.record_vote v) = SlotState.final_stake e ss :=
    final_stake_record_of_ne e ss v (by simp [hk])
  have hhn : ∀ i h, ss_has_notar_vote (ss.record_vote v) i h = ss_has_notar_vote ss i h := by
    intro i h
    rw [has_notar_vote_record]
    simp [hk]
  refine ⟨?_, ?_, ?_, ?_, ?_, ?_, ?_, ?_, ?_, ?_, ?_, ?_, ?_, ?_, ?_⟩
  · intro h
    rw [ss_notar_cert_record, hnst h]
    simpa [pend_notar, any_ite_singleton] using hN h
  · intro h
    rw [ss_ff_cert_record, hnst h]
    simpa [pend_ff, any_ite_singleton] using hF h
  · rw [hcert, hsst]
    simpa [any_ite_singleton, is_skip_kind] using hS
  · rw [hcert, hfst]
    simpa [any_ite_singleton, is_final_kind] using hFin
  · intro i h1 h2 ha hb2
    rw [hhn] at ha hb2
    exact hP.record_ok i h1 h2 ha hb2
  · intro c0 hc0
    rw [hcert] at hc0
    exact hP.notar_wf c0 hc0
  · intro c0 hc0
    rw [hcert] at hc0
    exact hP.ff_wf c0 hc0
  · intro hcontra
    simp [any_ite_singleton, is_notar_cert] at hcontra
  · intro hcontra
    simp [any_ite_singleton, is_ff_cert] at hcontra
  · intro hcontra
    simp [any_ite_singleton, is_skip_kind] at hcontra
  · intro hcontra
    simp [any_ite_singleton, is_final_kind] at hcontra
  · simp [countP_ite_singleton, is_notar_cert]
  · simp [countP_ite_singleton, is_ff_cert]
  · simp [countP_ite_singleton, is_skip_kind]
  · simp [countP_ite_singleton, is_final_kind]

theorem pendok_emit_skiplike (e : EpochInfo) (slot : Nat) (ss : SlotState) (v : Vote)
    (hok : SlotOkState e ss)
    (hknotar : ∀ h0, ¬v.kind = VoteKind.notar h0)
    (hkfinal : ¬v.kind = VoteKind.final) :
    PendOk e (ss.record_vote v)
      (if SlotState.skip_stake e (ss.record_vote v) * 5 > e.total_stake * 3
          ∧ (ss.record_vote v).certificates.skip = none
       then [{ slot := slot, kind := CertKind.skip, sig_ok := true }] else []) := by
  have hP : PendOk e ss [] := hok
  have hN : ∀ h, ss_notar_cert ss h = true
      ↔ SlotState.notar_stake e ss h * 5 > e.total_stake * 3 := by
    intro h
    simpa [pend_notar] using hP.notar_iff h
  have hF : ∀ h, ss_ff_cert ss h = true
      ↔ SlotState.notar_stake e ss h * 5 > e.total_stake * 4 := by
    intro h
    simpa [pend_ff] using hP.ff_iff h
  have hS : ss.certificates.skip.isSome = true
      ↔ SlotState.skip_stake e ss * 5 > e.total_stake * 3 := by
    simpa using hP.skip_iff
  have hFin : ss.certificates.finalize.isSome = true
      ↔ SlotState.final_stake e ss * 5 > e.total_stake * 3 := by
    simpa using hP.final_iff
  have hcert := record_vote_certs ss v
  have hnst : ∀ h, SlotState.notar_stake e (ss.record_vote v) h = SlotState.notar_stake e ss h :=
    fun h => notar_stake_record_of_ne e ss v h (hknotar h)
  have hfst : SlotState.final_stake e (ss.record_vote v) = SlotState.final_stake e ss :=
    final_stake_record_of_ne e ss v hkfinal
  have hmono := skip_stake_record_mono e ss v
  have hhn : ∀ i h, ss_has_notar_vote (ss.record_vote v) i h = ss_has_notar_vote ss i h := by
    intro i h
    rw [has_notar_vote_record]
    simp [hknotar h]
  refine ⟨?_, ?_, ?_, ?_, ?_, ?_, ?_, ?_, ?_, ?_, ?_, ?_, ?_, ?_, ?_⟩
  · intro h
    rw [ss_notar_cert_record, hnst h]
    simpa [pend_notar, any_ite_singleton] using hN h
  · intro h
    rw [ss_ff_cert_record, hnst h]
    simpa [pend_ff, any_ite_singleton] using hF h
  · by_cases hcond : SlotState.skip_stake e (ss.record_vote v) * 5 > e.total_stake * 3
        ∧ (ss.record_vote v).certificates.skip = none
    · rw [if_pos hcond]
      simp [is_skip_kind, hcond.1]
    · rw [if_neg hcond]
      simp only [List.any_nil]
      rw [hcert]
      cases hsk : ss.certificates.skip with
      | some c0 =>
        have hcross : SlotState.skip_stake e ss * 5 > e.total_stake * 3 := hS.mp (by simp [hsk])
        simp only [Option.isSome_some, Bool.false_eq_true, or_false]
        constructor
        · intro _
          omega
        · intro _
          trivial
      | none =>
        simp only [Option.isSome_none, Bool.false_eq_true, or_self, false_iff]
        intro hcontra
        exact hcond ⟨hcontra, by rw [hcert, hsk]⟩
  · rw [hcert, hfst]
    simpa [any_ite_singleton, is_final_kind] using hFin
  · intro i h1 h2 ha hb2
    rw [hhn] at ha hb2
    exact hP.record_ok i h1 h2 ha hb2
  · intro c0 hc0
    rw [hcert] at hc0
    exact hP.notar_wf c0 hc0
  · intro c0 hc0
    rw [hcert] at hc0
    exact hP.ff_wf c0 hc0
  · intro hcontra
    simp [any_ite_singleton, is_notar_cert] at hcontra
  · intro hcontra
    simp [any_ite_singleton, is_ff_cert] at hcontra
  · intro hcond
    simp only [any_ite_singleton] at hcond
    rcases (ite_eq_iff.mp hcond) with ⟨hc, _⟩ | ⟨_, hcontra⟩
    · exact hc.2
    · exact absurd hcontra.symm (by simp)
  · intro hcontra
    simp [any_ite_singleton, is_final_kind] at hcontra
  · simp [countP_ite_singleton, is_notar_cert]
  · simp [countP_ite_singleton, is_ff_cert]
  · simp only [countP_ite_singleton, is_skip_kind]
    split <;> simp
  · simp [countP_ite_singleton, is_final_kind]

theorem pendok_emit_final (e : EpochInfo) (slot : Nat) (ss : SlotState) (v : Vote)
    (hok : SlotOkState e ss) (hk : v.kind = VoteKind.final) :
    PendOk e (ss.record_vote v)
      (if SlotState.final_stake e (ss.record_vote v) * 5 > e.total_stake * 3
          ∧ (ss.record_vote v).certificates.finalize = none
       then [{ slot := slot, kind := CertKind.final, sig_ok := true }] else []) := by
  have hP : PendOk e ss [] := hok
  have hN : ∀ h, ss_notar_cert ss h = true
      ↔ SlotState.notar_stake e ss h * 5 > e.total_stake * 3 := by
    intro h
    simpa [pend_notar] using hP.notar_iff h
  have hF : ∀ h, ss_ff_cert ss h = true
      ↔ SlotState.notar_stake e ss h * 5 > e.total_stake * 4 := by
    intro h
    simpa [pend_ff] using hP.ff_iff h
  have hS : ss.certificates.skip.isSome = true
      ↔ SlotState.skip_stake e ss * 5 > e.total_stake * 3 := by
    simpa using hP.skip_iff
  have hFin : ss.certificates.finalize.isSome = true
      ↔ SlotState.final_stake e ss * 5 > e.total_stake * 3 := by
    simpa using hP.final_iff
  have hcert := record_vote_certs ss v
  have hnst : ∀ h, SlotState.notar_stake e (ss.record_vote v) h = SlotState.notar_stake e ss h :=
    fun h => notar_stake_record_of_ne e ss v h (by simp [hk])
  have hsst : SlotState.skip_stake e (ss.record_vote v) = SlotState.skip_stake e ss :=
    skip_stake_record_of_ne e ss v (by simp [hk]) (by simp [hk])
  have hmono := final_stake_record_mono e ss v
  have hhn : ∀ i h, ss_has_notar_vote (ss.record_vote v) i h = ss_has_notar_vote ss i h := by
    intro i h
    rw [has_notar_vote_record]
    simp [hk]
  refine ⟨?_, ?_, ?_, ?_, ?_, ?_, ?_, ?_, ?_, ?_, ?_, ?_, ?_, ?_, ?_⟩
  · intro h
    rw [ss_notar_cert_record, hnst h]
    simpa [pend_notar, any_ite_singleton] using hN h
  · intro h
    rw [ss_ff_cert_record, hnst h]
    simpa [pend_ff, any_ite_singleton] using hF h
  · rw [hcert, hsst]
    simpa [any_ite_singleton, is_skip_kind] using hS
  · by_cases hcond : SlotState.final_stake e (ss.record_vote v) * 5 > e.total_stake * 3
        ∧ (ss.record_vote v).certificates.finalize = none
    · rw [if_pos hcond]
      simp [is_final_kind, hcond.1]
    · rw [if_neg hcond]
      simp only [List.any_nil]
      rw [hcert]
      cases hsk : ss.certificates.finalize with
      | some c0 =>
        have hcross : SlotState.final_stake e ss * 5 > e.total_stake * 3 := hFin.mp (by simp [hsk])
        simp only [Option.isSome_some, Bool.false_eq_true, or_false]
        constructor
        · intro _
          omega
        · intro _
          trivial
      | none =>
        simp only [Option.isSome_none, Bool.false_eq_true, or_self, false_iff]
        intro hcontra
        exact hcond ⟨hcontra, by rw [hcert, hsk]⟩
  · intro i h1 h2 ha hb2
    rw [hhn] at ha hb2
    exact hP.record_ok i h1 h2 ha hb2
  · intro c0 hc0
    rw [hcert] at hc0
    exact hP.notar_wf c0 hc0
  · intro c0 hc0
    rw [hcert] at hc0
    exact hP.ff_wf c0 hc0
  · intro hcontra
    simp [any_ite_singleton, is_notar_cert] at hcontra
  · intro hcontra
    simp [any_ite_singleton, is_ff_cert] at hcontra
  · intro hcontra
    simp [any_ite_singleton, is_skip_kind] at hcontra
  · intro hcond
    simp only [any_ite_singleton] at hcond
    rcases (ite_eq_iff.mp hcond) with ⟨hc, _⟩ | ⟨_, hcontra⟩
    · exact hc.2
    · exact absurd hcontra.symm (by simp)
  · simp [countP_ite_singleton, is_notar_cert]
  · simp [countP_ite_singleton, is_ff_cert]
  · simp [countP_ite_singleton, is_skip_kind]
  · simp only [countP_ite_singleton, is_final_kind]
    split <;> simp

theorem pendok_emit_notar (e : EpochInfo) (slot : Nat) (ss : SlotState) (v : Vote) (hb : Nat)
    (hok : SlotOkState e ss)
    (hchk : check_slashable_votes slot ss.votes v = none)
    (hk : v.kind = VoteKind.notar hb) :
    PendOk e (ss.record_vote v)
      ((if SlotState.notar_stake e (ss.record_vote v) hb * 5 > e.total_stake * 3
           ∧ (ss.record_vote v).certificates.notar = none
        then [{ slot := slot, kind := CertKind.notar hb, sig_ok := true }] else [])
       ++ (if SlotState.notar_fallback_stake e (ss.record_vote v) hb * 5 > e.total_stake * 2
              ∧ SlotState.has_nf_cert (ss.record_vote v) hb = false
           then [{ slot := slot, kind := CertKind.notarFallback hb, sig_ok := true }] else [])
       ++ (if SlotState.notar_stake e (ss.record_vote v) hb * 5 > e.total_stake * 4
              ∧ (ss.record_vote v).certificates.fast_finalize = none
           then [{ slot := slot, kind := CertKind.fastFinal hb, sig_ok := true }] else [])) := by
  have hP : PendOk e ss [] := hok
  have hN : ∀ h, ss_notar_cert ss h = true
      ↔ SlotState.notar_stake e ss h * 5 > e.total_stake * 3 := by
    intro h
    simpa [pend_notar] using hP.notar_iff h
  have hF : ∀ h, ss_ff_cert ss h = true
      ↔ SlotState.notar_stake e ss h * 5 > e.total_stake * 4 := by
    intro h
    simpa [pend_ff] using hP.ff_iff h
  have hS : ss.certificates.skip.isSome = true
      ↔ SlotState.skip_stake e ss * 5 > e.total_stake * 3 := by
    simpa using hP.skip_iff
  have hFin : ss.certificates.finalize.isSome = true
      ↔ SlotState.final_stake e ss * 5 > e.total_stake * 3 := by
    simpa using hP.final_iff
  have hcert := record_vote_certs ss v
  have hmono : ∀ h,
      SlotState.notar_stake e ss h ≤ SlotState.notar_stake e (ss.record_vote v) h :=
    fun h => notar_stake_record_mono e ss v h
  have hnst_ne : ∀ h, ¬h = hb →
      SlotState.notar_stake e (ss.record_vote v) h = SlotState.notar_stake e ss h := by
    intro h hh
    refine notar_stake_record_of_ne e ss v h ?_
    rw [hk]
    simp only [VoteKind.notar.injEq]
    omega
  have hsst := skip_stake_record_of_ne e ss v (by simp [hk]) (by simp [hk])
  have hfst := final_stake_record_of_ne e ss v (by simp [hk])
  have hrec1 := record_ok_record slot ss v hchk hP.record_ok
  have hpair : ∀ h1 h2, h1 ≠ h2 →
      SlotState.notar_stake e (ss.record_vote v) h1
        + SlotState.notar_stake e (ss.record_vote v) h2 ≤ e.total_stake :=
    fun h1 h2 hne => notar_stake_pair_le e (ss.record_vote v) h1 h2 hne hrec1
  refine ⟨?_, ?_, ?_, ?_, hrec1, ?_, ?_, ?_, ?_, ?_, ?_, ?_, ?_, ?_, ?_⟩
  · intro h
    by_cases hh : h = hb
    · rw [hh]
      by_cases hA : SlotState.notar_stake e (ss.record_vote v) hb * 5 > e.total_stake * 3
          ∧ (ss.record_vote v).certificates.notar = none
      · simp only [pend_notar, List.any_append, any_ite_singleton, if_pos hA]
        simp [hA.1]
      · simp only [pend_notar, List.any_append, any_ite_singleton, if_neg hA]
        cases hnc : ss.certificates.notar with
        | none =>
          have hnone : (ss.record_vote v).certificates.notar = none := by
            rw [hcert]
            exact hnc
          have hncross :
              ¬SlotState.notar_stake e (ss.record_vote v) hb * 5 > e.total_stake * 3 :=
            fun hc => hA ⟨hc, hnone⟩
          simp [ss_notar_cert, hnone, hncross]
        | some c0 =>
          have hsome : (ss.record_vote v).certificates.notar = some c0 := by
            rw [hcert]
            exact hnc
          have hwf := hP.notar_wf c0 hnc
          cases hk0 : c0.kind with
          | notar h0 =>
            by_cases hh0 : h0 = hb
            · have hss_old : ss_notar_cert ss h0 = true := by simp [ss_notar_cert, hnc, hk0]
              have hold := (hN h0).mp hss_old
              have hm := hmono h0
              rw [hh0] at hold hm
              simp only [ss_notar_cert, hsome, hk0, hh0]
              simp
              omega
            · have hss_old : ss_notar_cert ss h0 = true := by simp [ss_notar_cert, hnc, hk0]
              have hold := (hN h0).mp hss_old
              have hm := hmono h0
              have hp := hpair h0 hb hh0
              simp only [ss_notar_cert, hsome, hk0]
              simp [hh0]
              omega
          | notarFallback h0 => simp [is_notar_cert, hk0] at hwf
          | skip => simp [is_notar_cert, hk0] at hwf
          | fastFinal h0 => simp [is_notar_cert, hk0] at hwf
          | final => simp [is_notar_cert, hk0] at hwf
    · rw [ss_notar_cert_record, hnst_ne h hh]
      simp only [pend_notar, List.any_append, any_ite_singleton]
      simpa [Ne.symm hh] using hN h
  · intro h
    by_cases hh : h = hb
    · rw [hh]
      by_cases hC : SlotState.notar_stake e (ss.record_vote v) hb * 5 > e.total_stake * 4
          ∧ (ss.record_vote v).certificates.fast_finalize = none
      · simp only [pend_ff, List.any_append, any_ite_singleton, if_pos hC]
        simp [hC.1]
      · simp only [pend_ff, List.any_append, any_ite_singleton, if_neg hC]
        cases hnc : ss.certificates.fast_finalize with
        | none =>
          have hnone : (ss.record_vote v).certificates.fast_finalize = none := by
            rw [hcert]
            exact hnc
          have hncross :
              ¬SlotState.notar_stake e (ss.record_vote v) hb * 5 > e.total_stake * 4 :=
            fun hc => hC ⟨hc, hnone⟩
          simp [ss_ff_cert, hnone, hncross]
        | some c0 =>
          have hsome : (ss.record_vote v).certificates.fast_finalize = some c0 := by
            rw [hcert]
            exact hnc
          have hwf := hP.ff_wf c0 hnc
          cases hk0 : c0.kind with
          | fastFinal h0 =>
            by_cases hh0 : h0 = hb
            · have hss_old : ss_ff_cert ss h0 = true := by simp [ss_ff_cert, hnc, hk0]
              have hold := (hF h0).mp hss_old
              have hm := hmono h0
              rw [hh0] at hold hm
              simp only [ss_ff_cert, hsome, hk0, hh0]
              simp
              omega
            · have hss_old : ss_ff_cert ss h0 = true := by simp [ss_ff_cert, hnc, hk0]
              have hold := (hF h0).mp hss_old
              have hm := hmono h0
              have hp := hpair h0 hb hh0
              simp only [ss_ff_cert, hsome, hk0]
              simp [hh0]
              omega
          | notar h0 => simp [is_ff_cert, hk0] at hwf
          | notarFallback h0 => simp [is_ff_cert, hk0] at hwf
          | skip => simp [is_ff_cert, hk0] at hwf
          | final => simp [is_ff_cert, hk0] at hwf
    · rw [ss_ff_cert_record, hnst_ne h hh]
      simp only [pend_ff, List.any_append, any_ite_singleton]
      simpa [Ne.symm hh] using hF h
  · rw [hcert, hsst]
    simpa [List.any_append, any_ite_singleton, is_skip_kind] using hS
  · rw [hcert, hfst]
    simpa [List.any_append, any_ite_singleton, is_final_kind] using hFin
  · intro c0 hc0
    rw [hcert] at hc0
    exact hP.notar_wf c0 hc0
  · intro c0 hc0
    rw [hcert] at hc0
    exact hP.ff_wf c0 hc0
  · intro hany
    simp only [List.any_append, any_ite_singleton, Bool.or_eq_true, is_notar_cert] at hany
    rcases hany with (h1 | h1) | h1
    · rcases ite_eq_iff.mp h1 with ⟨hc, _⟩ | ⟨_, hfalse⟩
      · exact hc.2
      · simp at hfalse
    · simp at h1
    · simp at h1
  · intro hany
    simp only [List.any_append, any_ite_singleton, Bool.or_eq_true, is_ff_cert] at hany
    rcases hany with (h1 | h1) | h1
    · simp at h1
    · simp at h1
    · rcases ite_eq_iff.mp h1 with ⟨hc, _⟩ | ⟨_, hfalse⟩
      · exact hc.2
      · simp at hfalse
  · intro hany
    simp [List.any_append, any_ite_singleton, is_skip_kind] at hany
  · intro hany
    simp [List.any_append, any_ite_singleton, is_final_kind] at hany
  · simp only [List.countP_append, countP_ite_singleton, is_notar_cert]
    repeat' split
    all_goals first | omega | contradiction
  · simp only [List.countP_append, countP_ite_singleton, is_ff_cert]
    repeat' split
    all_goals first | omega | contradiction
  · simp only [List.countP_append, countP_ite_singleton, is_skip_kind]
    repeat' split
    all_goals first | omega | contradiction
  · simp only [List.countP_append, countP_ite_singleton, is_final_kind]
    repeat' split
    all_goals first | omega | contradiction

theorem pendok_emit (e : EpochInfo) (slot : Nat) (ss : SlotState) (v : Vote)
    (hok : SlotOkState e ss)
    (hchk : check_slashable_votes slot ss.votes v = none) :
    PendOk e (SlotState.add_vote e slot ss v).1 (SlotState.add_vote e slot ss v).2.1 := by
  cases hk : v.kind with
  | notar hb =>
    simp only [SlotState.add_vote, hk]
    exact pendok_emit_notar e slot ss v hb hok hchk hk
  | notarFallback hb =>
    simp only [SlotState.add_vote, hk]
    exact pendok_emit_nf e slot ss v hb hok hk
  | skip =>
    simp only [SlotState.add_vote, hk]
    exact pendok_emit_skiplike e slot ss v hok (by simp [hk]) (by simp [hk])
  | skipFallback =>
    simp only [SlotState.add_vote, hk]
    exact pendok_emit_skiplike e slot ss v hok (by simp [hk]) (by simp [hk])
  | final =>
    simp only [SlotState.add_vote, hk]
    exact pendok_emit_final e slot ss v hok hk

theorem tail_no_of_countP (l : List Cert) (c : Cert) (p : Cert → Bool)
    (hcnt : (c :: l).countP p ≤ 1) (hc : p c = true) : ∀ c' ∈ l, ¬p c' = true := by
  rw [List.countP_cons, hc, if_pos rfl] at hcnt
  have h0 : l.countP p = 0 := by omega
  exact fun c' hc' => (List.countP_eq_zero.mp h0) c' hc'

theorem pend_notar_false_of_no (l : List Cert) (h : Nat)
    (hno : ∀ c' ∈ l, ¬is_notar_cert c' = true) : pend_notar l h = false := by
  rw [pend_notar, List.any_eq_false]
  intro c' hc' hcc
  rw [decide_eq_true_eq] at hcc
  exact (hno c' hc') (by simp [is_notar_cert, hcc])

theorem pend_ff_false_of_no (l : List Cert) (h : Nat)
    (hno : ∀ c' ∈ l, ¬is_ff_cert c' = true) : pend_ff l h = false := by
  rw [pend_ff, List.any_eq_false]
  intro c' hc' hcc
  rw [decide_eq_true_eq] at hcc
  exact (hno c' hc') (by simp [is_ff_cert, hcc])

theorem pendok_step (e : EpochInfo) (ss : SlotState) (c : Cert) (pend : List Cert)
    (hP : PendOk e ss (c :: pend)) : PendOk e (ss.add_cert c) pend := by
  cases hk : c.kind with
  | notar h0 =>
    have hcrt := add_cert_notar_certs ss c h0 hk
    have hnone : ss.certificates.notar = none :=
      hP.disj_notar (by simp [is_notar_cert, hk])
    have htn := tail_no_of_countP pend c is_notar_cert hP.cnt_notar (by simp [is_notar_cert, hk])
    have hpn0 : ∀ h, pend_notar pend h = false := fun h => pend_notar_false_of_no pend h htn
    refine ⟨?_, ?_, ?_, ?_, ?_, ?_, ?_, ?_, ?_, ?_, ?_, ?_, ?_, ?_, ?_⟩
    · intro h
      have hold := hP.notar_iff h
      have hcons : pend_notar (c :: pend) h
          = (decide (CertKind.notar h0 = CertKind.notar h) || pend_notar pend h) := by
        simp [pend_notar, hk]
      rw [hcons, hpn0 h] at hold
      have h1 : ss_notar_cert ss h = false := by simp [ss_notar_cert, hnone]
      rw [h1] at hold
      have h2 : ss_notar_cert (ss.add_cert c) h
          = decide (CertKind.notar h0 = CertKind.notar h) := by
        simp only [ss_notar_cert, hcrt, hk]
      rw [notar_stake_add_cert, h2, hpn0 h]
      simpa using hold
    · intro h
      have hold := hP.ff_iff h
      have hcons : pend_ff (c :: pend) h = pend_ff pend h := by simp [pend_ff, hk]
      rw [hcons] at hold
      have h2 : ss_ff_cert (ss.add_cert c) h = ss_ff_cert ss h := by
        simp only [ss_ff_cert, hcrt]
      rw [notar_stake_add_cert, h2]
      exact hold
    · have hold := hP.skip_iff
      have hcons : (c :: pend).any is_skip_kind = pend.any is_skip_kind := by
        simp [is_skip_kind, hk]
      rw [hcons] at hold
      have h2 : (ss.add_cert c).certificates.skip = ss.certificates.skip := by
        simp only [hcrt]
      rw [skip_stake_add_cert, h2]
      exact hold
    · have hold := hP.final_iff
      have hcons : (c :: pend).any is_final_kind = pend.any is_final_kind := by
        simp [is_final_kind, hk]
      rw [hcons] at hold
      have h2 : (ss.add_cert c).certificates.finalize = ss.certificates.finalize := by
        simp only [hcrt]
      rw [final_stake_add_cert, h2]
      exact hold
    · intro i h1 h2 ha hb2
      rw [has_notar_vote_add_cert] at ha hb2
      exact hP.record_ok i h1 h2 ha hb2
    · intro c0 hc0
      simp only [hcrt] at hc0
      injection hc0 with h3
      rw [← h3]
      simp [is_notar_cert, hk]
    · intro c0 hc0
      simp only [hcrt] at hc0
      exact hP.ff_wf c0 hc0
    · intro hany
      rw [List.any_eq_true] at hany
      obtain ⟨c', hc', hp⟩ := hany
      exact absurd hp (htn c' hc')
    · intro hany
      have h4 := hP.disj_ff (by simp [List.any_cons, hany])
      simp only [hcrt]
      exact h4
    · intro hany
      have h4 := hP.disj_skip (by simp [List.any_cons, hany])
      simp only [hcrt]
      exact h4
    · intro hany
      have h4 := hP.disj_final (by simp [List.any_cons, hany])
      simp only [hcrt]
      exact h4
    · have h5 := List.countP_eq_zero.mpr htn
      simp [h5]
    · have h5 := hP.cnt_ff
      rw [List.countP_cons] at h5
      simp [is_ff_cert, hk] at h5
      exact h5
    · have h5 := hP.cnt_skip
      rw [List.countP_cons] at h5
      simp [is_skip_kind, hk] at h5
      exact h5
    · have h5 := hP.cnt_final
      rw [List.countP_cons] at h5
      simp [is_final_kind, hk] at h5
      exact h5
  | notarFallback h0 =>
    obtain ⟨hpn, hpf, hps, hpfin⟩ := add_cert_nf_proj ss c h0 hk
    refine ⟨?_, ?_, ?_, ?_, ?_, ?_, ?_, ?_, ?_, ?_, ?_, ?_, ?_, ?_, ?_⟩
    · intro h
      have hold := hP.notar_iff h
      have hcons : pend_notar (c :: pend) h = pend_notar pend h := by simp [pend_notar, hk]
      rw [hcons] at hold
      have h2 : ss_notar_cert (ss.add_cert c) h = ss_notar_cert ss h := by
        simp only [ss_notar_cert, hpn]
      rw [notar_stake_add_cert, h2]
      exact hold
    · intro h
      have hold := hP.ff_iff h
      have hcons : pend_ff (c :: pend) h = pend_ff pend h := by simp [pend_ff, hk]
      rw [hcons] at hold
      have h2 : ss_ff_cert (ss.add_cert c) h = ss_ff_cert ss h := by
        simp only [ss_ff_cert, hpf]
      rw [notar_stake_add_cert, h2]
      exact hold
    · have hold := hP.skip_iff
      have hcons : (c :: pend).any is_skip_kind = pend.any is_skip_kind := by
        simp [is_skip_kind, hk]
      rw [hcons] at hold
      rw [skip_stake_add_cert, hps]
      exact hold
    · have hold := hP.final_iff
      have hcons : (c :: pend).any is_final_kind = pend.any is_final_kind := by
        simp [is_final_kind, hk]
      rw [hcons] at hold
      rw [final_stake_add_cert, hpfin]
      exact hold
    · intro i h1 h2 ha hb2
      rw [has_notar_vote_add_cert] at ha hb2
      exact hP.record_ok i h1 h2 ha hb2
    · intro c0 hc0
      rw [hpn] at hc0
      exact hP.notar_wf c0 hc0
    · intro c0 hc0
      rw [hpf] at hc0
      exact hP.ff_wf c0 hc0
    · intro hany
      have h4 := hP.disj_notar (by simp [List.any_cons, hany])
      rw [hpn]
      exact h4
    · intro hany
      have h4 := hP.disj_ff (by simp [List.any_cons, hany])
      rw [hpf]
      exact h4
    · intro hany
      have h4 := hP.disj_skip (by simp [List.any_cons, hany])
      rw [hps]
      exact h4
    · intro hany
      have h4 := hP.disj_final (by simp [List.any_cons, hany])
      rw [hpfin]
      exact h4
    · have h5 := hP.cnt_notar
      rw [List.countP_cons] at h5
      simp [is_notar_cert, hk] at h5
      exact h5
    · have h5 := hP.cnt_ff
      rw [List.countP_cons] at h5
      simp [is_ff_cert, hk] at h5
      exact h5
    · have h5 := hP.cnt_skip
      rw [List.countP_cons] at h5
      simp [is_skip_kind, hk] at h5
      exact h5
    · have h5 := hP.cnt_final
      rw [List.countP_cons] at h5
      simp [is_final_kind, hk] at h5
      exact h5
  | skip =>
    have hcrt := add_cert_skip_certs ss c hk
    have hts := tail_no_of_countP pend c is_skip_kind hP.cnt_skip (by simp [is_skip_kind, hk])
    refine ⟨?_, ?_, ?_, ?_, ?_, ?_, ?_, ?_, ?_, ?_, ?_, ?_, ?_, ?_, ?_⟩
    · intro h
      have hold := hP.notar_iff h
      have hcons : pend_notar (c :: pend) h = pend_notar pend h := by simp [pend_notar, hk]
      rw [hcons] at hold
      have h2 : ss_notar_cert (ss.add_cert c) h = ss_notar_cert ss h := by
        simp only [ss_notar_cert, hcrt]
      rw [notar_stake_add_cert, h2]
      exact hold
    · intro h
      have hold := hP.ff_iff h
      have hcons : pend_ff (c :: pend) h = pend_ff pend h := by simp [pend_ff, hk]
      rw [hcons] at hold
      have h2 : ss_ff_cert (ss.add_cert c) h = ss_ff_cert ss h := by
        simp only [ss_ff_cert, hcrt]
      rw [notar_stake_add_cert, h2]
      exact hold
    · have hthr : SlotState.skip_stake e ss * 5 > e.total_stake * 3 :=
        hP.skip_iff.mp (Or.inr (by simp [is_skip_kind, hk]))
      rw [skip_stake_add_cert]
      constructor
      · intro _
        exact hthr
      · intro _
        left
        simp [hcrt]
    · have hold := hP.final_iff
      have hcons : (c :: pend).any is_final_kind = pend.any is_final_kind := by
        simp [is_final_kind, hk]
      rw [hcons] at hold
      have h2 : (ss.add_cert c).certificates.finalize = ss.certificates.finalize := by
        simp only [hcrt]
      rw [final_stake_add_cert, h2]
      exact hold
    · intro i h1 h2 ha hb2
      rw [has_notar_vote_add_cert] at ha hb2
      exact hP.record_ok i h1 h2 ha hb2
    · intro c0 hc0
      simp only [hcrt] at hc0
      exact hP.notar_wf c0 hc0
    · intro c0 hc0
      simp only [hcrt] at hc0
      exact hP.ff_wf c0 hc0
    · intro hany
      have h4 := hP.disj_notar (by simp [List.any_cons, hany])
      simp only [hcrt]
      exact h4
    · intro hany
      have h4 := hP.disj_ff (by simp [List.any_cons, hany])
      simp only [hcrt]
      exact h4
    · intro hany
      rw [List.any_eq_true] at hany
      obtain ⟨c', hc', hp⟩ := hany
      exact absurd hp (hts c' hc')
    · intro hany
      have h4 := hP.disj_final (by simp [List.any_cons, hany])
      simp only [hcrt]
      exact h4
    · have h5 := hP.cnt_notar
      rw [List.countP_cons] at h5
      simp [is_notar_cert, hk] at h5
      exact h5
    · have h5 := hP.cnt_ff
      rw [List.countP_cons] at h5
      simp [is_ff_cert, hk] at h5
      exact h5
    · have h5 := List.countP_eq_zero.mpr hts
      simp [h5]
    · have h5 := hP.cnt_final
      rw [List.countP_cons] at h5
      simp [is_final_kind, hk] at h5
      exact h5
  | fastFinal h0 =>
    have hcrt := add_cert_ff_certs ss c h0 hk
    have hnone : ss.certificates.fast_finalize = none :=
      hP.disj_ff (by simp [is_ff_cert, hk])
    have htf := tail_no_of_countP pend c is_ff_cert hP.cnt_ff (by simp [is_ff_cert, hk])
    have hpf0 : ∀ h, pend_ff pend h = false := fun h => pend_ff_false_of_no pend h htf
    refine ⟨?_, ?_, ?_, ?_, ?_, ?_, ?_, ?_, ?_, ?_, ?_, ?_, ?_, ?_, ?_⟩
    · intro h
      have hold := hP.notar_iff h
      have hcons : pend_notar (c :: pend) h = pend_notar pend h := by simp [pend_notar, hk]
      rw [hcons] at hold
      have h2 : ss_notar_cert (ss.add_cert c) h = ss_notar_cert ss h := by
        simp only [ss_notar_cert, hcrt]
      rw [notar_stake_add_cert, h2]
      exact hold
    · intro h
      have hold := hP.ff_iff h
      have hcons : pend_ff (c :: pend) h
          = (decide (CertKind.fastFinal h0 = CertKind.fastFinal h) || pend_ff pend h) := by
        simp [pend_ff, hk]
      rw [hcons, hpf0 h] at hold
      have h1 : ss_ff_cert ss h = false := by simp [ss_ff_cert, hnone]
      rw [h1] at hold
      have h2 : ss_ff_cert (ss.add_cert c) h
          = decide (CertKind.fastFinal h0 = CertKind.fastFinal h) := by
        simp only [ss_ff_cert, hcrt, hk]
      rw [notar_stake_add_cert, h2, hpf0 h]
      simpa using hold
    · have hold := hP.skip_iff
      have hcons : (c :: pend).any is_skip_kind = pend.any is_skip_kind := by
        simp [is_skip_kind, hk]
      rw [hcons] at hold
      have h2 : (ss.add_cert c).certificates.skip = ss.certificates.skip := by
        simp only [hcrt]
      rw [skip_stake_add_cert, h2]
      exact hold
    · have hold := hP.final_iff
      have hcons : (c :: pend).any is_final_kind = pend.any is_final_kind := by
        simp [is_final_kind, hk]
      rw [hcons] at hold
      have h2 : (ss.add_cert c).certificates.finalize = ss.certificates.finalize := by
        simp only [hcrt]
      rw [final_stake_add_cert, h2]
      exact hold
    · intro i h1 h2 ha hb2
      rw [has_notar_vote_add_cert] at ha hb2
      exact hP.record_ok i h1 h2 ha hb2
    · intro c0 hc0
      simp only [hcrt] at hc0
      exact hP.notar_wf c0 hc0
    · intro c0 hc0
      simp only [hcrt] at hc0
      injection hc0 with h3
      rw [← h3]
      simp [is_ff_cert, hk]
    · intro hany
      have h4 := hP.disj_notar (by simp [List.any_cons, hany])
      simp only [hcrt]
      exact h4
    · intro hany
      rw [List.any_eq_true] at hany
      obtain ⟨c', hc', hp⟩ := hany
      exact absurd hp (htf c' hc')
    · intro hany
      have h4 := hP.disj_skip (by simp [List.any_cons, hany])
      simp only [hcrt]
      exact h4
    · intro hany
      have h4 := hP.disj_final (by simp [List.any_cons, hany])
      simp only [hcrt]
      exact h4
    · have h5 := hP.cnt_notar
      rw [List.countP_cons] at h5
      simp [is_notar_cert, hk] at h5
      exact h5
    · have h5 := List.countP_eq_zero.mpr htf
      simp [h5]
    · have h5 := hP.cnt_skip
      rw [List.countP_cons] at h5
      simp [is_skip_kind, hk] at h5
      exact h5
    · have h5 := hP.cnt_final
      rw [List.countP_cons] at h5
      simp [is_final_kind, hk] at h5
      exact h5
  | final =>
    have hcrt := add_cert_final_certs ss c hk
    have htfin := tail_no_of_countP pend c is_final_kind hP.cnt_final
      (by simp [is_final_kind, hk])
    refine ⟨?_, ?_, ?_, ?_, ?_, ?_, ?_, ?_, ?_, ?_, ?_, ?_, ?_, ?_, ?_⟩
    · intro h
      have hold := hP.notar_iff h
      have hcons : pend_notar (c :: pend) h = pend_notar pend h := by simp [pend_notar, hk]
      rw [hcons] at hold
      have h2 : ss_notar_cert (ss.add_cert c) h = ss_notar_cert ss h := by
        simp only [ss_notar_cert, hcrt]
      rw [notar_stake_add_cert, h2]
      exact hold
    · intro h
      have hold := hP.ff_iff h
      have hcons : pend_ff (c :: pend) h = pend_ff pend h := by simp [pend_ff, hk]
      rw [hcons] at hold
      have h2 : ss_ff_cert (ss.add_cert c) h = ss_ff_cert ss h := by
        simp only [ss_ff_cert, hcrt]
      rw [notar_stake_add_cert, h2]
      exact hold
    · have hold := hP.skip_iff
      have hcons : (c :: pend).any is_skip_kind = pend.any is_skip_kind := by
        simp [is_skip_kind, hk]
      rw [hcons] at hold
      have h2 : (ss.add_cert c).certificates.skip = ss.certificates.skip := by
        simp only [hcrt]
      rw [skip_stake_add_cert, h2]
      exact hold
    · have hthr : SlotState.final_stake e ss * 5 > e.total_stake * 3 :=
        hP.final_iff.mp (Or.inr (by simp [is_final_kind, hk]))
      rw [final_stake_add_cert]
      constructor
      · intro _
        exact hthr
      · intro _
        left
        simp [hcrt]
    · intro i h1 h2 ha hb2
      rw [has_notar_vote_add_cert] at ha hb2
      exact hP.record_ok i h1 h2 ha hb2
    · intro c0 hc0
      simp only [hcrt] at hc0
      exact hP.notar_wf c0 hc0
    · intro c0 hc0
      simp only [hcrt] at hc0
      exact hP.ff_wf c0 hc0
    · intro hany
      have h4 := hP.disj_notar (by simp [List.any_cons, hany])
      simp only [hcrt]
      exact h4
    · intro hany
      have h4 := hP.disj_ff (by simp [List.any_cons, hany])
      simp only [hcrt]
      exact h4
    · intro hany
      have h4 := hP.disj_skip (by simp [List.any_cons, hany])
      simp only [hcrt]
      exact h4
    · intro hany
      rw [List.any_eq_true] at hany
      obtain ⟨c', hc', hp⟩ := hany
      exact absurd hp (htfin c' hc')
    · have h5 := hP.cnt_notar
      rw [List.countP_cons] at h5
      simp [is_notar_cert, hk] at h5
      exact h5
    · have h5 := hP.cnt_ff
      rw [List.countP_cons] at h5
      simp [is_ff_cert, hk] at h5
      exact h5
    · have h5 := hP.cnt_skip
      rw [List.countP_cons] at h5
      simp [is_skip_kind, hk] at h5
      exact h5
    · have h5 := List.countP_eq_zero.mpr htfin
      simp [h5]

theorem slot_state_get_ensure_other (p : Pool) (slot s : Nat) :
    (p.ensure_slot_state slot).slot_state_get s = p.slot_state_get s := by
  by_cases hs : s = slot
  · rw [hs, slot_state_get_ensure_eq]
  · simp [Pool.ensure_slot_state, Pool.slot_state_get, lookupKV_insertKV_ne _ _ _ _ hs]

theorem set_state_get_self (p : Pool) (slot : Nat) (ss : SlotState) :
    (Pool.set_slot_state p slot ss).slot_state_get slot = ss := by
  simp [Pool.set_slot_state, Pool.slot_state_get, lookupKV_insertKV_self]

theorem set_state_get_other (p : Pool) (slot s : Nat) (ss : SlotState) (hs : ¬s = slot) :
    (Pool.set_slot_state p slot ss).slot_state_get s = p.slot_state_get s := by
  simp [Pool.set_slot_state, Pool.slot_state_get, lookupKV_insertKV_ne _ _ _ _ hs]

theorem avc_other_slot (q : Pool) (c : Cert) (s : Nat)
    (hs : s ≠ c.slot) (hw : q.s2n_waiting_parent_cert = []) :
    (Pool.add_valid_cert q c).slot_state_get s = q.slot_state_get s
    ∨ (Pool.add_valid_cert q c).slot_state_get s = SlotState.new := by
  cases hk : c.kind with
  | notar bh =>
    left
    simp [Pool.add_valid_cert, hk, hw, lookupKV, Pool.set_slot_state, Pool.slot_state_get,
      lookupKV_insertKV_ne _ _ _ _ hs]
  | notarFallback bh =>
    left
    simp [Pool.add_valid_cert, hk, hw, lookupKV, Pool.set_slot_state, Pool.slot_state_get,
      lookupKV_insertKV_ne _ _ _ _ hs]
  | skip =>
    left
    simp [Pool.add_valid_cert, hk, hw, Pool.set_slot_state, Pool.slot_state_get,
      lookupKV_insertKV_ne _ _ _ _ hs]
  | fastFinal bh =>
    simp only [Pool.add_valid_cert, hk, Pool.prune, Pool.set_slot_state, Pool.slot_state_get]
    rw [lookupKV_filter (fun k => decide (max c.slot q.highest_finalized_slot ≤ k))
      (insertKV q.slot_states c.slot
        (SlotState.add_cert ((lookupKV q.slot_states c.slot).getD SlotState.new) c)) s]
    split
    · left
      rw [lookupKV_insertKV_ne _ _ _ _ hs]
    · right
      rfl
  | final =>
    simp only [Pool.add_valid_cert, hk, Pool.prune, Pool.set_slot_state, Pool.slot_state_get]
    rw [lookupKV_filter (fun k => decide (max c.slot q.highest_finalized_slot ≤ k))
      (insertKV q.slot_states c.slot
        (SlotState.add_cert ((lookupKV q.slot_states c.slot).getD SlotState.new) c)) s]
    split
    · left
      rw [lookupKV_insertKV_ne _ _ _ _ hs]
    · right
      rfl

theorem foldl_avc_statesok (L : List Cert) (q : Pool) (s0 : Nat)
    (hslots : ∀ c ∈ L, c.slot = s0)
    (hw : q.s2n_waiting_parent_cert = [])
    (hh : q.highest_finalized_slot ≤ s0)
    (hpend : PendOk q.epoch_info (q.slot_state_get s0) L)
    (hothers : ∀ s, ¬s = s0 → SlotOkState q.epoch_info (q.slot_state_get s)) :
    (∀ s, SlotOkState (L.foldl Pool.add_valid_cert q).epoch_info
        ((L.foldl Pool.add_valid_cert q).slot_state_get s))
    ∧ (L.foldl Pool.add_valid_cert q).s2n_waiting_parent_cert = [] := by
  induction L generalizing q with
  | nil =>
    refine ⟨?_, hw⟩
    intro s
    by_cases hs : s = s0
    · rw [hs]
      exact hpend
    · exact hothers s hs
  | cons c t ih =>
    have hc : c.slot = s0 := hslots c (List.mem_cons_self c t)
    obtain ⟨h1, h2, h3, h4⟩ := avc_at_slot q c hw (by rw [hc]; exact hh)
    have hh' : (Pool.add_valid_cert q c).highest_finalized_slot ≤ s0 := by
      rcases h3 with h3 | h3
      · rw [h3]
        exact hh
      · rw [h3, hc]
    have hget : (Pool.add_valid_cert q c).slot_state_get s0
        = SlotState.add_cert (q.slot_state_get s0) c := by
      rw [Pool.slot_state_get, ← hc, h1]
      rfl
    have hpend' : PendOk (Pool.add_valid_cert q c).epoch_info
        ((Pool.add_valid_cert q c).slot_state_get s0) t := by
      rw [h4, hget]
      exact pendok_step q.epoch_info (q.slot_state_get s0) c t hpend
    have hothers' : ∀ s, ¬s = s0 → SlotOkState (Pool.add_valid_cert q c).epoch_info
        ((Pool.add_valid_cert q c).slot_state_get s) := by
      intro s hs
      rcases avc_other_slot q c s (by rw [hc]; exact hs) hw with he | he
      · rw [h4, he]
        exact hothers s hs
      · rw [h4, he]
        exact slotok_new q.epoch_info
    obtain ⟨ha, hb⟩ := ih (Pool.add_valid_cert q c)
      (fun c' hc' => hslots c' (List.mem_cons_of_mem _ hc')) h2 hh' hpend' hothers'
    exact ⟨by simpa [List.foldl] using ha, by simpa [List.foldl] using hb⟩

theorem add_vote_tail_ok (pr : Pool) (v : Vote)
    (hsok : ∀ s, SlotOkState pr.epoch_info (pr.slot_state_get s))
    (hw2 : pr.s2n_waiting_parent_cert = [])
    (hh2 : pr.highest_finalized_slot ≤ v.slot)
    (hchk : check_slashable_votes v.slot (pr.slot_state_get v.slot).votes v = none) :
    (∀ s, SlotOkState
        (((SlotState.add_vote (pr.ensure_slot_state v.slot).epoch_info v.slot
              (pr.slot_state_get v.slot) v).2.1).foldl Pool.add_valid_cert
          (Pool.set_slot_state (pr.ensure_slot_state v.slot) v.slot
            (SlotState.add_vote (pr.ensure_slot_state v.slot).epoch_info v.slot
              (pr.slot_state_get v.slot) v).1)).epoch_info
        ((((SlotState.add_vote (pr.ensure_slot_state v.slot).epoch_info v.slot
              (pr.slot_state_get v.slot) v).2.1).foldl Pool.add_valid_cert
          (Pool.set_slot_state (pr.ensure_slot_state v.slot) v.slot
            (SlotState.add_vote (pr.ensure_slot_state v.slot).epoch_info v.slot
              (pr.slot_state_get v.slot) v).1)).slot_state_get s))
    ∧ (((SlotState.add_vote (pr.ensure_slot_state v.slot).epoch_info v.slot
          (pr.slot_state_get v.slot) v).2.1).foldl Pool.add_valid_cert
        (Pool.set_slot_state (pr.ensure_slot_state v.slot) v.slot
          (SlotState.add_vote (pr.ensure_slot_state v.slot).epoch_info v.slot
            (pr.slot_state_get v.slot) v).1)).s2n_waiting_parent_cert = [] := by
  refine foldl_avc_statesok _ _ v.slot (add_vote_certs_slot _ _ _ _) hw2 hh2 ?_ ?_
  · rw [set_state_get_self, set_state_epoch_info, ensure_epoch_info]
    exact pendok_emit pr.epoch_info v.slot (pr.slot_state_get v.slot) v (hsok v.slot) hchk
  · intro s hs2
    rw [set_state_get_other _ _ _ _ hs2, slot_state_get_ensure_other, set_state_epoch_info,
      ensure_epoch_info]
    exact hsok s

theorem add_vote_poolok (p : Pool) (v : Vote) (hok : PoolOk p) :
    PoolOk (Pool.add_vote p v).2 := by
  obtain ⟨hsok, hw⟩ := hok
  cases hbb : slot_out_of_bounds p.highest_finalized_slot v.slot with
  | true =>
    simp [Pool.add_vote, hbb]
    exact ⟨hsok, hw⟩
  | false =>
    have hh : p.highest_finalized_slot ≤ v.slot := by
      simp only [slot_out_of_bounds, Bool.or_eq_false_iff, decide_eq_false_iff_not] at hbb
      omega
    cases hs : v.sig_ok with
    | false =>
      cases hbh : v.block_hash with
      | none =>
        simp [Pool.add_vote, hbb, hbh, hs]
        exact ⟨hsok, hw⟩
      | some x =>
        simp [Pool.add_vote, hbb, hbh, hs]
        exact ⟨hsok, hw⟩
    | true =>
      cases hchk : SlotState.check_slashable_offence v.slot (p.slot_state_get v.slot) v with
      | some off =>
        cases hbh : v.block_hash with
        | none =>
          simp [Pool.add_vote, hbb, hbh, hs, slot_state_get_ensure_eq, hchk]
          refine ⟨?_, hw⟩
          intro s
          rw [slot_state_get_ensure_other]
          exact hsok s
        | some x =>
          simp [Pool.add_vote, hbb, hbh, hs, slot_state_get_ensure_eq,
            repair_slot_state_get, hchk]
          refine ⟨?_, hw⟩
          intro s
          rw [slot_state_get_ensure_other]
          exact hsok s
      | none =>
        cases hig : SlotState.should_ignore_vote (p.slot_state_get v.slot) v with
        | true =>
          cases hbh : v.block_hash with
          | none =>
            simp [Pool.add_vote, hbb, hbh, hs, slot_state_get_ensure_eq, hchk, hig]
            refine ⟨?_, hw⟩
            intro s
            rw [slot_state_get_ensure_other]
            exact hsok s
          | some x =>
            simp [Pool.add_vote, hbb, hbh, hs, slot_state_get_ensure_eq,
              repair_slot_state_get, hchk, hig]
            refine ⟨?_, hw⟩
            intro s
            rw [slot_state_get_ensure_other]
            exact hsok s
        | false =>
          cases hbh : v.block_hash with
          | none =>
            simp only [Pool.add_vote, hbh, hbb, Bool.false_eq_true, if_false, hs, if_true,
              if_false, Bool.true_eq_false, slot_state_get_ensure_eq, hchk, hig]
            exact ⟨(add_vote_tail_ok p v hsok hw hh hchk).1,
              (add_vote_tail_ok p v hsok hw hh hchk).2⟩
          | some x =>
            simp only [Pool.add_vote, hbh, hbb, Bool.false_eq_true, if_false, hs, if_true,
              if_false, Bool.true_eq_false, slot_state_get_ensure_eq, repair_slot_state_get,
              hchk, hig]
            exact ⟨(add_vote_tail_ok { p with repair_out := p.repair_out ++ [(v.slot, x)] } v
                hsok hw hh hchk).1,
              (add_vote_tail_ok { p with repair_out := p.repair_out ++ [(v.slot, x)] } v
                hsok hw hh hchk).2⟩

theorem avc_epoch (q : Pool) (c : Cert) :
    (Pool.add_valid_cert q c).epoch_info = q.epoch_info := by
  cases hk : c.kind <;>
    simp only [Pool.add_valid_cert, hk, Pool.prune, Pool.set_slot_state,
      Pool.ensure_slot_state] <;>
    (repeat' split) <;>
    rfl

theorem foldl_avc_epoch (L : List Cert) (q : Pool) :
    (L.foldl Pool.add_valid_cert q).epoch_info = q.epoch_info := by
  induction L generalizing q with
  | nil => rfl
  | cons c t ih =>
    rw [List.foldl_cons, ih, avc_epoch]

theorem add_vote_epoch (p : Pool) (v : Vote) :
    (Pool.add_vote p v).2.epoch_info = p.epoch_info := by
  simp only [Pool.add_vote]
  repeat' split
  all_goals first
    | rfl
    | (rw [show (Pool.set_slot_state _ _ _).epoch_info = p.epoch_info from rfl])
    | (rw [foldl_avc_epoch]; rfl)

theorem apply_votes_epoch (vs : List Vote) (p : Pool) :
    (Pool.apply_votes p vs).epoch_info = p.epoch_info := by
  induction vs generalizing p with
  | nil => rfl
  | cons v t ih =>
    have hstep : Pool.apply_votes p (v :: t) = Pool.apply_votes ((Pool.add_vote p v).2) t := rfl
    rw [hstep, ih, add_vote_epoch]

theorem poolok_new (e : EpochInfo) : PoolOk (Pool.new e) := by
  refine ⟨?_, rfl⟩
  intro s
  have hget : (Pool.new e).slot_state_get s = SlotState.new := rfl
  rw [hget]
  exact slotok_new _

theorem apply_votes_poolok (e : EpochInfo) (vs : List Vote) :
    PoolOk (Pool.apply_votes (Pool.new e) vs) := by
  suffices h : ∀ p, PoolOk p → PoolOk (Pool.apply_votes p vs) by
    exact h _ (poolok_new e)
  induction vs with
  | nil => exact fun p hp => hp
  | cons v t ih =>
    intro p hp
    have hstep : Pool.apply_votes p (v :: t) = Pool.apply_votes ((Pool.add_vote p v).2) t := rfl
    rw [hstep]
    exact ih _ (add_vote_poolok p v hp)

/-- Claim C1: threshold correctness.  For every stake distribution and every
sequence of votes fed through `Pool::add_vote` from a fresh pool, a `Notar`
certificate for `(slot, hash)` is held iff the cumulative stake of distinct
`Notar`-voters for that hash exceeds 60% of total epoch stake; a `FastFinal`
certificate iff that stake exceeds 80%; a `Skip` certificate iff distinct
`Skip`/`SkipFallback` stake exceeds 60%; a `Final` certificate iff distinct
`Final`-vote stake exceeds 60%.  With 11 equal-stake validators the
certificate appears exactly when the 7th (resp. 9th for `FastFinal`) vote is
admitted, and not before. -/
theorem c1_threshold_correctness :
    (∀ (e : EpochInfo) (votes : List Vote) (slot h : Nat),
      ((Pool.apply_votes (Pool.new e) votes).has_notar_cert slot h = true
        ↔ (Pool.apply_votes (Pool.new e) votes).notar_voter_stake slot h * 5
            > e.total_stake * 3)
      ∧ ((Pool.apply_votes (Pool.new e) votes).has_fast_final_cert slot h = true
        ↔ (Pool.apply_votes (Pool.new e) votes).notar_voter_stake slot h * 5
            > e.total_stake * 4)
      ∧ ((Pool.apply_votes (Pool.new e) votes).has_skip_cert slot = true
        ↔ (Pool.apply_votes (Pool.new e) votes).skip_voter_stake slot * 5
            > e.total_stake * 3)
      ∧ ((Pool.apply_votes (Pool.new e) votes).has_final_cert slot = true
        ↔ (Pool.apply_votes (Pool.new e) votes).final_voter_stake slot * 5
            > e.total_stake * 3))
    ∧ (Pool.apply_votes (Pool.new eleven_equal)
        (votes_from (notar_vote 1 7) 6)).has_notar_cert 1 7 = false
    ∧ (Pool.apply_votes (Pool.new eleven_equal)
        (votes_from (notar_vote 1 7) 7)).has_notar_cert 1 7 = true
    ∧ (Pool.apply_votes (Pool.new eleven_equal)
        (votes_from (notar_vote 1 7) 8)).has_fast_final_cert 1 7 = false
    ∧ (Pool.apply_votes (Pool.new eleven_equal)
        (votes_from (notar_vote 1 7) 9)).has_fast_final_cert 1 7 = true
    ∧ (Pool.apply_votes (Pool.new eleven_equal)
        (votes_from (skip_vote 1) 6)).has_skip_cert 1 = false
    ∧ (Pool.apply_votes (Pool.new eleven_equal)
        (votes_from (skip_vote 1) 7)).has_skip_cert 1 = true
    ∧ (Pool.apply_votes (Pool.new eleven_equal)
        (votes_from (final_vote 1) 6)).has_final_cert 1 = false
    ∧ (Pool.apply_votes (Pool.new eleven_equal)
        (votes_from (final_vote 1) 7)).has_final_cert 1 = true := by
  refine ⟨?_, by decide, by decide, by decide, by decide, by decide, by decide, by decide,
    by decide⟩
  intro e votes slot h
  have hok := apply_votes_poolok e votes
  have hE : (Pool.apply_votes (Pool.new e) votes).epoch_info = e := apply_votes_epoch votes _
  have hP : PendOk e ((Pool.apply_votes (Pool.new e) votes).slot_state_get slot) [] := by
    have hs := hok.1 slot
    rw [hE] at hs
    exact hs
  refine ⟨?_, ?_, ?_, ?_⟩
  · have h1 := hP.notar_iff h
    simp only [pend_notar, List.any_nil, Bool.false_eq_true, or_false] at h1
    have e1 : (Pool.apply_votes (Pool.new e) votes).has_notar_cert slot h
        = ss_notar_cert ((Pool.apply_votes (Pool.new e) votes).slot_state_get slot) h := rfl
    have e2 : (Pool.apply_votes (Pool.new e) votes).notar_voter_stake slot h
        = SlotState.notar_stake e
            ((Pool.apply_votes (Pool.new e) votes).slot_state_get slot) h := by
      rw [show (Pool.apply_votes (Pool.new e) votes).notar_voter_stake slot h
          = SlotState.notar_stake (Pool.apply_votes (Pool.new e) votes).epoch_info
              ((Pool.apply_votes (Pool.new e) votes).slot_state_get slot) h from rfl, hE]
    rw [e1, e2]
    exact h1
  · have h1 := hP.ff_iff h
    simp only [pend_ff, List.any_nil, Bool.false_eq_true, or_false] at h1
    have e1 : (Pool.apply_votes (Pool.new e) votes).has_fast_final_cert slot h
        = ss_ff_cert ((Pool.apply_votes (Pool.new e) votes).slot_state_get slot) h := rfl
    have e2 : (Pool.apply_votes (Pool.new e) votes).notar_voter_stake slot h
        = SlotState.notar_stake e
            ((Pool.apply_votes (Pool.new e) votes).slot_state_get slot) h := by
      rw [show (Pool.apply_votes (Pool.new e) votes).notar_voter_stake slot h
          = SlotState.notar_stake (Pool.apply_votes (Pool.new e) votes).epoch_info
              ((Pool.apply_votes (Pool.new e) votes).slot_state_get slot) h from rfl, hE]
    rw [e1, e2]
    exact h1
  · have h1 := hP.skip_iff
    simp only [List.any_nil, Bool.false_eq_true, or_false] at h1
    have e2 : (Pool.apply_votes (Pool.new e) votes).skip_voter_stake slot
        = SlotState.skip_stake e
            ((Pool.apply_votes (Pool.new e) votes).slot_state_get slot) := by
      rw [show (Pool.apply_votes (Pool.new e) votes).skip_voter_stake slot
          = SlotState.skip_stake (Pool.apply_votes (Pool.new e) votes).epoch_info
              ((Pool.apply_votes (Pool.new e) votes).slot_state_get slot) from rfl, hE]
    rw [show (Pool.apply_votes (Pool.new e) votes).has_skip_cert slot
        = ((Pool.apply_votes (Pool.new e) votes).slot_state_get slot).certificates.skip.isSome
        from rfl, e2]
    exact h1
  · have h1 := hP.final_iff
    simp only [List.any_nil, Bool.false_eq_true, or_false] at h1
    have e2 : (Pool.apply_votes (Pool.new e) votes).final_voter_stake slot
        = SlotState.final_stake e
            ((Pool.apply_votes (Pool.new e) votes).slot_state_get slot) := by
      rw [show (Pool.apply_votes (Pool.new e) votes).final_voter_stake slot
          = SlotState.final_stake (Pool.apply_votes (Pool.new e) votes).epoch_info
              ((Pool.apply_votes (Pool.new e) votes).slot_state_get slot) from rfl, hE]
    rw [show (Pool.apply_votes (Pool.new e) votes).has_final_cert slot
        = ((Pool.apply_votes (Pool.new e) votes).slot_state_get slot).certificates.finalize.isSome
        from rfl, e2]
    exact h1

end Alpenglow
